import Mathlib

/-!
# A verification development for the `routes` package

Shallow embedding of `routes/router.go` and `routes/context_http.go`:
path-parameter extraction (`setParam`, `splitPath`), the request-scoped store
(`Get`, `Set`, `Param`), the JSON response writer, the logging wrapper, verb
dispatch and the certificate bootstrap (`ReadCertAndKey`, `Start`, `StartTLS`,
`readFile`).

Go strings are modelled as lists of characters.  Every string operation the
package uses (`Split`, `HasPrefix`, `Contains`, `Index`, `ReplaceAll`, slicing
at an index returned by `Index`) cuts a valid UTF-8 string only at character
boundaries, so the byte-level and the character-level readings agree on valid
UTF-8 input.
-/

set_option autoImplicit false

/-- A Go `string`, as the list of its characters. -/
abbrev GoString := List Char

/-! ## The functions of Go's `strings` package that the router calls -/

namespace Strings

/-- Go `strings.HasPrefix(s, prefix)`. -/
def HasPrefix (s pre : GoString) : Bool := pre.isPrefixOf s

/-- Go `strings.Index(s, substr)`: the index of the first occurrence of `substr`
in `s`, or `-1` when there is none. -/
def Index : GoString → GoString → Int
  | [], sub => if sub.isEmpty then 0 else -1
  | c :: t, sub =>
    if sub.isPrefixOf (c :: t) then 0
    else
      let i := Index t sub
      if i < 0 then -1 else i + 1

/-- Go `strings.Contains(s, substr)`, which is `Index(s, substr) >= 0`. -/
def Contains (s sub : GoString) : Bool := decide (0 ≤ Index s sub)

/-- Replacement of the non-overlapping occurrences of a non-empty `old`, scanning
from the left; the counter is the number of characters of a matched occurrence
that are still to be skipped. -/
def replaceAux (old new : GoString) : Nat → GoString → GoString
  | _, [] => []
  | k + 1, _ :: t => replaceAux old new k t
  | 0, c :: t =>
    if old.isPrefixOf (c :: t) then new ++ replaceAux old new (old.length - 1) t
    else c :: replaceAux old new 0 t

/-- Go `strings.ReplaceAll(s, old, new)`.  With an empty `old`, Go inserts `new`
at the start of the string and after every character. -/
def ReplaceAll (s old new : GoString) : GoString :=
  if old.isEmpty then new ++ s.flatMap (fun c => c :: new)
  else replaceAux old new 0 s

/-- Splitting around the non-overlapping occurrences of a non-empty separator;
the counter is the number of separator characters still to be skipped. -/
def splitAux (sep : GoString) : Nat → GoString → List GoString
  | _, [] => [[]]
  | k + 1, _ :: t => splitAux sep k t
  | 0, c :: t =>
    if sep.isPrefixOf (c :: t) then [] :: splitAux sep (sep.length - 1) t
    else
      match splitAux sep 0 t with
      | [] => [[c]]
      | w :: ws => (c :: w) :: ws

/-- Go `strings.Split(s, sep)`.  With an empty separator Go explodes the string
into its characters. -/
def Split (s sep : GoString) : List GoString :=
  if sep.isEmpty then s.map (fun c => [c])
  else splitAux sep 0 s

/-- Unicode `White_Space`, the predicate `unicode.IsSpace`. -/
def isSpace (c : Char) : Bool :=
  let n := c.toNat
  (9 ≤ n && n ≤ 13) || n == 32 || n == 0x85 || n == 0xA0 || n == 0x1680 ||
  (0x2000 ≤ n && n ≤ 0x200A) || n == 0x2028 || n == 0x2029 || n == 0x202F ||
  n == 0x205F || n == 0x3000

/-- Go `strings.TrimSpace(s)`. -/
def TrimSpace (s : GoString) : GoString :=
  ((s.dropWhile isSpace).reverse.dropWhile isSpace).reverse

end Strings

/-! ## Request-scoped values: `context.WithValue` and `Context.Value` -/

/-- A dynamically typed Go value (`any`), as far as the router distinguishes
them: the nil interface, a `string`, or a value of some other type. -/
inductive GoAny where
  | nil
  | str (s : GoString)
  | other (tag : Nat)
  deriving DecidableEq, Repr

/-- The router's key type `type ContextKey string`. -/
abbrev ContextKey := GoString

/-- The chain built by `context.WithValue`, innermost binding first.  Only the
bindings whose key has type `ContextKey` are kept: a key of any other type never
compares equal to a `ContextKey`. -/
abbrev Context := List (ContextKey × GoAny)

namespace Context

/-- Go `context.WithValue(parent, key, val)`. -/
def WithValue (parent : Context) (key : ContextKey) (val : GoAny) : Context :=
  (key, val) :: parent

/-- Go `ctx.Value(key)`: the innermost binding of `key`, or nil. -/
def Value : Context → ContextKey → GoAny
  | [], _ => GoAny.nil
  | (k, v) :: parent, key => if k = key then v else Value parent key

end Context

/-! ## HTTP headers, requests and response writers -/

/-- Go `http.Header`, a map from canonical header names to value lists, as an
association list whose first binding of a name is the current one. -/
abbrev Header := List (GoString × List GoString)

namespace Header

/-- The value list bound to a name, the map lookup `h[key]`. -/
def values : Header → GoString → List GoString
  | [], _ => []
  | (k, vs) :: h, key => if k = key then vs else values h key

/-- Go `Header.Get(key)` for a name in canonical form: the first value bound to
the name, or the empty string. -/
def Get (h : Header) (key : GoString) : GoString :=
  match values h key with
  | [] => []
  | v :: _ => v

/-- Go `Header.Set(key, value)` for a name in canonical form: the name is bound
to the one-element list `[value]`. -/
def Set (h : Header) (key value : GoString) : Header :=
  (key, [value]) :: h

/-- Go `Header.Del(key)` for a name in canonical form. -/
def Del (h : Header) (key : GoString) : Header :=
  h.filter (fun p => decide (p.1 ≠ key))

/-- Whether the map has an entry for the name, `_, ok := h[key]`. -/
def has (h : Header) (key : GoString) : Bool :=
  h.any (fun p => decide (p.1 = key))

/-- The header name `Content-Length`. -/
def ContentLength : GoString := "Content-Length".toList

/-- The header name `Transfer-Encoding`. -/
def TransferEncoding : GoString := "Transfer-Encoding".toList

end Header

/-- The fields of `*http.Request` that the package reads. -/
structure Request where
  Method : GoString
  RequestURI : GoString
  RemoteAddr : GoString
  /-- The field `r.URL.Path`. -/
  URLPath : GoString
  /-- The field `r.Header`: the header fields sent by the client. -/
  Header : Header
  /-- The result of `r.Context()`. -/
  ctx : Context
  deriving DecidableEq, Repr

namespace Request

/-- Go `r.WithContext(ctx)`: a copy of the request with the context replaced. -/
def WithContext (r : Request) (ctx : Context) : Request := { r with ctx := ctx }

end Request

namespace Routes

/-- The constant `XSession`. -/
def XSession : GoString := "X-Request-Id".toList

/-- The function `removeLeftBraces` of `router.go`. -/
def removeLeftBraces (str : GoString) : GoString :=
  Strings.ReplaceAll str ['{'] []

/-- The function `removeRightBrace` of `router.go`. -/
def removeRightBrace (str : GoString) : GoString :=
  Strings.ReplaceAll str ['}'] []

/-- One iteration of the loop of `splitPath`. -/
def splitPathStep (urlPath : GoString) (paramValue v : GoString) : GoString :=
  if v ≠ [] then
    if Strings.Contains urlPath v then
      let p1 := urlPath.drop (Strings.Index urlPath v).toNat
      let p2 := Strings.ReplaceAll p1 v []
      Strings.ReplaceAll p2 ['/'] []
    else paramValue
  else paramValue

/-- The function `splitPath` of `router.go`. -/
def splitPath (subPath : List GoString) (urlPath : GoString) (paramValue : GoString) :
    GoString :=
  subPath.foldl (splitPathStep urlPath) paramValue

/-- One iteration of the loop of `setParam`, on the pair `(paramKey, paramValue)`. -/
def setParamStep (subPath : List GoString) (urlPath : GoString)
    (st : ContextKey × GoString) (v : GoString) : ContextKey × GoString :=
  if v ≠ [] then
    if Strings.HasPrefix v ['{'] then
      let key := removeRightBrace (removeLeftBraces v)
      if key ≠ [] then (key, st.2) else st
    else (st.1, splitPath subPath urlPath st.2)
  else st

/-- The pair `(paramKey, paramValue)` that the loop of `setParam` ends with. -/
def setParamLoop (path urlPath : GoString) : ContextKey × GoString :=
  let subPath := Strings.Split path ['/']
  subPath.foldl (setParamStep subPath urlPath) ([], [])

/-- The function `setParam` of `router.go`. -/
def setParam (path : GoString) (r : Request) : Request :=
  let st := setParamLoop path r.URLPath
  if st.1 ≠ [] ∧ st.2 ≠ [] then
    r.WithContext (Context.WithValue r.ctx st.1 (GoAny.str st.2))
  else r


/-! ## The request context of `context_http.go` -/

/-- The implementations of `http.ResponseWriter` that a handler of this package
is run with: `httptest.ResponseRecorder` in the package's tests, the response of
the HTTP/1.x server that `Start` runs, and the response of the HTTP/2 server
that `StartTLS` configures. -/
inductive WriterKind where
  | recorder
  | server
  | server2
  deriving DecidableEq, Repr

/-- The state of a response writer, as far as `Header`, `WriteHeader` and
`Write` read and change it. -/
structure ResponseWriter where
  kind : WriterKind
  /-- Whether the request being answered is a `HEAD` request (servers only). -/
  head : Bool
  /-- The header map returned by `Header()`; a `Content-Type` that the recorder
  sets by sniffing is kept apart, in `sniffed`. -/
  HeaderMap : Header
  /-- The status code: the recorder's `Code`, `200` until `WriteHeader` is called;
  the servers' `status`, `0` until then. -/
  Code : Int
  wroteHeader : Bool
  /-- The body: what the recorder buffers, what a server sends. -/
  Body : GoString
  /-- The bytes from which the recorder sniffed a `Content-Type`, if it did. -/
  sniffed : Option GoString
  /-- The `1xx` responses a server has sent ahead of the final one. -/
  informational : List Int
  /-- The number of bytes handed to `Write` so far (servers only). -/
  written : Int
  /-- The length the HTTP/1.x server took from `Content-Length`, `-1` for none. -/
  contentLength : Int
  /-- The `Content-Length` of the header snapshot the HTTP/2 writer takes in
  `WriteHeader`. -/
  snapContentLength : GoString
  /-- The bytes waiting in the 4096-byte buffer of the HTTP/2 writer. -/
  buffered : Nat
  /-- Whether the HTTP/2 writer has sent its header block. -/
  sentHeader : Bool
  /-- The length the HTTP/2 writer declared in the header block it sent, `0` for
  none. -/
  sentContentLen : Int
  deriving DecidableEq, Repr

/-- The number of bytes of a string in UTF-8, Go's `len`. -/
def utf8Len (s : GoString) : Nat := (s.map (fun c => c.utf8Size)).sum

/-- The value of a non-empty string of decimal digits. -/
def digitsValue (s : GoString) : Option Nat :=
  if s = [] then none
  else s.foldl (fun acc c =>
    match acc with
    | none => none
    | some n => if c.isDigit then some (10 * n + (c.toNat - '0'.toNat)) else none) (some 0)

/-- Go `strconv.ParseInt(s, 10, 64)`, `none` for an error. -/
def ParseInt (s : GoString) : Option Int :=
  match s with
  | '+' :: t => (digitsValue t).bind (fun n => if n < 2 ^ 63 then some (n : Int) else none)
  | '-' :: t => (digitsValue t).bind (fun n => if n ≤ 2 ^ 63 then some (-(n : Int)) else none)
  | t => (digitsValue t).bind (fun n => if n < 2 ^ 63 then some (n : Int) else none)

/-- Go `strconv.ParseUint(s, 10, 63)`, `none` for an error. -/
def ParseUint63 (s : GoString) : Option Int :=
  (digitsValue s).bind (fun n => if n < 2 ^ 63 then some (n : Int) else none)

/-- The function `bodyAllowedForStatus` of `net/http`: no body with a `1xx`, a
`204` or a `304` status. -/
def bodyAllowedForStatus (status : Int) : Bool :=
  !(decide (100 ≤ status ∧ status ≤ 199) || decide (status = 204) || decide (status = 304))

namespace ResponseWriter

/-- A writer of the given kind to which nothing has been written, with the
given header map, answering a request that is not a `HEAD` request. -/
def new (kind : WriterKind) (h : Header) : ResponseWriter :=
  { kind := kind, head := false, HeaderMap := h,
    Code := if kind = WriterKind.recorder then 200 else 0,
    wroteHeader := false, Body := [], sniffed := none, informational := [],
    written := 0, contentLength := -1, snapContentLength := [], buffered := 0,
    sentHeader := false, sentContentLen := 0 }

/-- A recorder to which nothing has been written, as `httptest.NewRecorder()`
returns it, with the given header map. -/
def fresh (h : Header) : ResponseWriter := new WriterKind.recorder h

/-- What `WriteHeader(code)` does once the code has passed the check.  The
recorder records the code.  The HTTP/1.x server sends a `1xx` code other than
`101` as an informational response and records nothing; for any other code it
records the status and reads `Content-Length`, deleting the header when it is
not a non-negative number.  The HTTP/2 server sends every `1xx` code as an
informational response, and otherwise records the status and takes its header
snapshot. -/
def setStatus (w : ResponseWriter) (code : Int) : ResponseWriter :=
  match w.kind with
  | WriterKind.recorder => { w with Code := code, wroteHeader := true }
  | WriterKind.server =>
    if 100 ≤ code ∧ code ≤ 199 ∧ code ≠ 101 then
      { w with informational := w.informational ++ [code] }
    else
      let w1 := { w with Code := code, wroteHeader := true }
      let cl := Header.Get w.HeaderMap Header.ContentLength
      if cl = [] then w1
      else
        match ParseInt cl with
        | some v =>
          if 0 ≤ v then { w1 with contentLength := v }
          else { w1 with HeaderMap := Header.Del w.HeaderMap Header.ContentLength }
        | none => { w1 with HeaderMap := Header.Del w.HeaderMap Header.ContentLength }
  | WriterKind.server2 =>
    if 100 ≤ code ∧ code ≤ 199 then
      { w with informational := w.informational ++ [code] }
    else
      { w with Code := code, wroteHeader := true,
               snapContentLength := Header.Get w.HeaderMap Header.ContentLength }

/-- Go `WriteHeader(code)`.  After the header has been written it does nothing;
a code outside `100..999` makes `checkWriteHeaderCode` panic in all three
writers, which is the result `none`. -/
def WriteHeader (w : ResponseWriter) (code : Int) : Option ResponseWriter :=
  if w.wroteHeader then some w
  else if code < 100 ∨ code > 999 then none
  else some (setStatus w code)

/-- The buffer of the HTTP/2 writer after a `Write` of `n` bytes: the number of
bytes left in it, and whether the write made it flush. -/
def bufferAfter (buffered n : Nat) : Nat × Bool :=
  if n ≤ 4096 - buffered then (buffered + n, false)
  else if buffered = 0 then (0, true)
  else if n - (4096 - buffered) > 4096 then (0, true)
  else (n - (4096 - buffered), true)

/-- Go `Write(buf)`.  Every writer first writes the header with status `200` if
none was written; the recorder then sniffs a `Content-Type` when the header map
has none and no `Transfer-Encoding`.  The recorder appends the bytes to its
body.  A server refuses the bytes when the status allows no body or when they
exceed the declared length, and sends none of them in answer to a `HEAD`
request. -/
def Write (w : ResponseWriter) (buf : GoString) : ResponseWriter :=
  match w.kind with
  | WriterKind.recorder =>
    let w1 :=
      if w.wroteHeader then w
      else
        let w0 :=
          if !Header.has w.HeaderMap "Content-Type".toList
              && decide (Header.Get w.HeaderMap Header.TransferEncoding = []) then
            { w with sniffed := some buf }
          else w
        { w0 with Code := 200, wroteHeader := true }
    { w1 with Body := w1.Body ++ buf }
  | WriterKind.server =>
    let w1 := if w.wroteHeader then w else setStatus w 200
    if buf = [] then w1
    else if !bodyAllowedForStatus w1.Code then w1
    else
      let w2 := { w1 with written := w1.written + utf8Len buf }
      if w2.contentLength ≠ -1 ∧ w2.written > w2.contentLength then w2
      else if w2.head then w2
      else { w2 with Body := w2.Body ++ buf }
  | WriterKind.server2 =>
    let w1 := if w.wroteHeader then w else setStatus w 200
    if !bodyAllowedForStatus w1.Code then w1
    else
      let w2 := { w1 with written := w1.written + utf8Len buf }
      if w2.sentContentLen ≠ 0 ∧ w2.written > w2.sentContentLen then w2
      else
        let (left, flushed) := bufferAfter w2.buffered (utf8Len buf)
        let w3 :=
          if flushed && !w2.sentHeader then
            { w2 with buffered := left, sentHeader := true,
                      sentContentLen := (ParseUint63 w2.snapContentLength).getD 0 }
          else { w2 with buffered := left }
        if w3.head then w3
        else { w3 with Body := w3.Body ++ buf }

end ResponseWriter

/-- The struct `HTTPContext`: the response writer and the request. -/
structure HTTPContext where
  w : ResponseWriter
  r : Request
  deriving DecidableEq, Repr

/-- The function `NewMyContext`. -/
def NewMyContext (w : ResponseWriter) (r : Request) : HTTPContext := ⟨w, r⟩

namespace HTTPContext

/-- The method `GetSession`. -/
def GetSession (c : HTTPContext) : GoString := Header.Get c.w.HeaderMap XSession

/-- The method `Get`: the value read, and the context after the call. -/
def Get (c : HTTPContext) (key : GoString) : GoAny × HTTPContext :=
  (Context.Value c.r.ctx key, c)

/-- The method `Set`: the context after the call. -/
def Set (c : HTTPContext) (key : GoString) (value : GoAny) : HTTPContext :=
  { c with r := c.r.WithContext (Context.WithValue c.r.ctx key value) }

/-- The method `Param`: the string returned, and the context after the call. -/
def Param (c : HTTPContext) (key : GoString) : GoString × HTTPContext :=
  let v := Context.Value c.r.ctx key
  let result : GoString :=
    match v with
    | GoAny.str s => s
    | _ => []
  (result, { c with r := c.r.WithContext (Context.WithValue c.r.ctx key GoAny.nil) })

/-- The header name that `JSON` sets. -/
def ContentType : GoString := "Content-Type".toList

/-- The value that `JSON` gives the `Content-Type` header. -/
def jsonUTF8 : GoString := "application/json; charset=UTF8".toList

/-- Go `json.NewEncoder(w).Encode(obj)`: the encoding of `obj` followed by a
newline is written in one `Write`; when `obj` has no encoding nothing is written.
The encoder itself, `marshal`, is a parameter. -/
def Encode {α : Type} (marshal : α → Option GoString) (w : ResponseWriter) (obj : α) :
    ResponseWriter :=
  match marshal obj with
  | some b => w.Write (b ++ ['\n'])
  | none => w

/-- The method `JSON`: the context after the call, or `none` when `WriteHeader`
panics. -/
def JSON {α : Type} (marshal : α → Option GoString) (c : HTTPContext) (code : Int)
    (obj : α) : Option HTTPContext :=
  let w1 : ResponseWriter :=
    { c.w with HeaderMap := Header.Set c.w.HeaderMap ContentType jsonUTF8 }
  match w1.WriteHeader code with
  | none => none
  | some w2 => some { c with w := Encode marshal w2 obj }

end HTTPContext

/-- The type `ServiceHandleFunc`: a handler receives the context and leaves it
in a new state, or panics (`none`). -/
abbrev ServiceHandleFunc := HTTPContext → Option HTTPContext

/-- A `http.HandlerFunc`: the response writer after the call, `none` on a panic. -/
abbrev HandlerFunc := ResponseWriter → Request → Option ResponseWriter

/-! ## Verb registration: the closure each method hands to the mux -/

/-- The closure that `GET(path, handler)` registers under `"GET " + path`. -/
def GET (path : GoString) (handler : ServiceHandleFunc) : HandlerFunc :=
  fun w r =>
    let r := setParam path r
    (handler (NewMyContext w r)).map (fun c => c.w)

/-- The closure that `POST(path, handler)` registers under `"POST " + path`. -/
def POST (path : GoString) (handler : ServiceHandleFunc) : HandlerFunc :=
  fun w r =>
    let r := setParam path r
    (handler (NewMyContext w r)).map (fun c => c.w)

/-- The closure that `PUT(path, handler)` registers under `"PUT " + path`. -/
def PUT (path : GoString) (handler : ServiceHandleFunc) : HandlerFunc :=
  fun w r =>
    let r := setParam path r
    (handler (NewMyContext w r)).map (fun c => c.w)

/-- The closure that `PATCH(path, handler)` registers under `"PATCH " + path`. -/
def PATCH (_path : GoString) (handler : ServiceHandleFunc) : HandlerFunc :=
  fun w r => (handler (NewMyContext w r)).map (fun c => c.w)

/-- The closure that `DELETE(path, handler)` registers under `"DELETE " + path`. -/
def DELETE (path : GoString) (handler : ServiceHandleFunc) : HandlerFunc :=
  fun w r =>
    let r := setParam path r
    (handler (NewMyContext w r)).map (fun c => c.w)

/-! ## The logging wrapper -/

/-- The fields of the `Info("Request", ...)` entry. -/
structure LogEntry where
  method : GoString
  requestURI : GoString
  remoteAddr : GoString
  duration : Int
  sessionId : GoString
  deriving DecidableEq, Repr

/-- What one run of the wrapper does: the writer and the request handed to the
wrapped handler, how often `uuid.NewString` was called, and, when the handler
returns, the writer it leaves and the entry logged. -/
structure LoggerRun where
  wNext : ResponseWriter
  rNext : Request
  uuidCalls : Nat
  done : Option (ResponseWriter × LogEntry)

/-- The method `Logger`.  `newId` is what `uuid.NewString()` returns when it is
called, `start` and `finish` are the two clock readings. -/
def Logger (newId : GoString) (start finish : Int) (next : HandlerFunc)
    (w : ResponseWriter) (r : Request) : LoggerRun :=
  let reqId0 := Header.Get w.HeaderMap XSession
  let gen : Bool := decide (reqId0 = [])
  let reqId := if gen then newId else reqId0
  let w1 : ResponseWriter :=
    if gen then { w with HeaderMap := Header.Set w.HeaderMap XSession reqId } else w
  let ctx := Context.WithValue r.ctx XSession (GoAny.str reqId)
  let r1 := r.WithContext ctx
  { wNext := w1, rNext := r1, uuidCalls := if gen then 1 else 0,
    done := (next w1 r1).map (fun w2 =>
      (w2, { method := r1.Method, requestURI := r1.RequestURI, remoteAddr := r1.RemoteAddr,
             duration := finish - start, sessionId := reqId })) }

/-! ## Certificate loading and server start -/

/-- A Go `error` value: the sentinel `http.ErrServerClosed`, an error made by
`fmt.Errorf`, or an error reported by the operating system or a library. -/
inductive GoError where
  | ErrServerClosed
  | errorf (msg : GoString)
  | sys (msg : GoString)
  deriving DecidableEq, Repr

namespace GoError

/-- The method `Error()`, the text that `%v` prints. -/
def Error : GoError → GoString
  | ErrServerClosed => "http: Server closed".toList
  | errorf msg => msg
  | sys msg => msg

/-- Go `errors.Is(err, http.ErrServerClosed)`; none of the errors of this model
wraps another one. -/
def isServerClosed (err : GoError) : Bool := decide (err = ErrServerClosed)

end GoError

/-- A byte slice. -/
abbrev Bytes := List Nat

/-- What `os.Stat` reports about a file, as far as `readFile` looks at it. -/
structure FileInfo where
  IsDir : Bool
  Size : Int
  deriving DecidableEq, Repr

/-- The operating system and the libraries that the start-up code calls: every
field is the result the named call gives. -/
structure World where
  /-- Go `os.Getwd()`. -/
  Getwd : Except GoError GoString
  /-- Go `os.ReadDir(dir)`, the names of the entries. -/
  ReadDir : GoString → Except GoError (List GoString)
  /-- Go `os.Getenv(name)`. -/
  Getenv : GoString → GoString
  /-- Go `os.Stat(file)`. -/
  Stat : GoString → Except GoError FileInfo
  /-- Go `os.ReadFile(file)`. -/
  ReadFile : GoString → Except GoError Bytes
  /-- Go `caCertPool.AppendCertsFromPEM(pem)`. -/
  AppendCertsFromPEM : Bytes → Bool
  /-- Go `tls.X509KeyPair(cert, key)`, its error if it has one. -/
  X509KeyPair : Bytes → Bytes → Option GoError
  /-- Go `http2.ConfigureServer(server, s2)`. -/
  ConfigureServer : Option GoError
  /-- Go `server.Serve(tcpListener)` of the TLS server. -/
  Serve : Option GoError
  /-- Go `srv.ListenAndServe()` of the plaintext server. -/
  ListenAndServe : Option GoError

/-- The function `readFile`: the byte slice (nil is the empty list) and the
error. -/
def readFile (os : World) (file errorPrefix : GoString) : Bytes × Option GoError :=
  let file := Strings.TrimSpace file
  if file = [] then
    ([], some (GoError.errorf (errorPrefix ++ " file cannot be blank".toList)))
  else
    match os.Stat file with
    | Except.error err =>
      ([], some (GoError.errorf
        (errorPrefix ++ " file not found ".toList ++ file ++ ": ".toList ++ err.Error)))
    | Except.ok osf =>
      if osf.IsDir then
        ([], some (GoError.errorf
          (errorPrefix ++ " file needs to specify a file in its path".toList)))
      else if osf.Size < 1 then
        ([], some (GoError.errorf (errorPrefix ++ " file cannot be empty".toList)))
      else
        match os.ReadFile file with
        | Except.error err =>
          ([], some (GoError.errorf
            ("failed to read ".toList ++ errorPrefix ++ " file ".toList ++ file ++
              ": ".toList ++ err.Error)))
        | Except.ok bytes =>
          if bytes.length < 1 then
            ([], some (GoError.errorf
              (errorPrefix ++ " file ".toList ++ file ++ " is empty".toList)))
          else (bytes, none)

/-- The function `getServerCert`: the error it returns, if any. -/
def getServerCert (os : World) : Option GoError :=
  let cert : GoString := "certificates/cert.pem".toList
  match readFile os cert "Cert".toList with
  | (_, some err) =>
    some (GoError.errorf
      ("failed to read certificate ".toList ++ cert ++ ": ".toList ++ err.Error))
  | (certBytes, none) =>
    let key : GoString := "certificates/key.pem".toList
    match readFile os key "Key".toList with
    | (_, some err) =>
      some (GoError.errorf
        ("failed to read certificate key ".toList ++ key ++ ": ".toList ++ err.Error))
    | (certKeyBytes, none) =>
      match os.X509KeyPair certBytes certKeyBytes with
      | some errCert =>
        some (GoError.errorf
          ("failed to load certificate ".toList ++ cert ++ " and key ".toList ++ key ++
            ": ".toList ++ errCert.Error))
      | none => none

/-- The method `StartTLS`: the error it returns, `none` for nil. -/
def StartTLS (os : World) (caFile _port : GoString) : Option GoError :=
  match readFile os caFile "CA Cert".toList with
  | (_, some errReadFile) =>
    some (GoError.errorf
      ("failed to read ca certificate ".toList ++ caFile ++ ": ".toList ++
        errReadFile.Error))
  | (caCert, none) =>
    if !os.AppendCertsFromPEM caCert then
      some (GoError.errorf ("failed to append CA certificate ".toList ++ caFile))
    else
      match getServerCert os with
      | some err =>
        some (GoError.errorf ("failed to get server certificate: ".toList ++ err.Error))
      | none =>
        match os.ConfigureServer with
        | some err =>
          some (GoError.errorf
            ("failed to configure server for http2: ".toList ++ err.Error))
        | none =>
          match os.Serve with
          | some err =>
            if !err.isServerClosed then
              some (GoError.errorf ("failed to serve server: ".toList ++ err.Error))
            else none
          | none => none

/-- The loop of `ReadCertAndKey` over the directory entries, on the pair
`(cert, key)`. -/
def certKeyStep (pwd : GoString) (st : GoString × GoString) (name : GoString) :
    GoString × GoString :=
  if Strings.Contains name "cert.pem".toList then
    (pwd ++ "/certificates/cert.pem".toList, st.2)
  else if Strings.Contains name "key.pem".toList then
    (st.1, pwd ++ "/certificates/key.pem".toList)
  else st

/-- The function `ReadCertAndKey`: the triple `(cert, key, err)`. -/
def ReadCertAndKey (os : World) : GoString × GoString × Option GoError :=
  match os.Getwd with
  | Except.error err => ([], [], some err)
  | Except.ok pwd =>
    match os.ReadDir (pwd ++ "/certificates".toList) with
    | Except.error err => ([], [], some err)
    | Except.ok files =>
      let st := files.foldl (certKeyStep pwd) ([], [])
      (st.1, st.2, none)

/-- What the goroutine of `Start` does: the `Info` messages logged, which of the
two servers it runs, and the error handed to `log.Fatal`, if any. -/
structure StartRun where
  info : List GoString
  calledStartTLS : Bool
  calledListenAndServe : Bool
  fatal : Option GoError
  deriving DecidableEq, Repr

/-- The method `Start`, up to the end of its goroutine; the wait for a signal
and the shutdown that follow are not part of the model. -/
def Start (os : World) : StartRun :=
  let (caFile, key, err) := ReadCertAndKey os
  let info1 : List GoString :=
    if err.isSome then ["server started without TLS".toList] else []
  let port0 := os.Getenv "PORT".toList
  let port := if port0 = [] then "8080".toList else port0
  let addr := ':' :: port
  let info2 := info1 ++ ["server started on port ".toList ++ addr]
  if caFile ≠ [] ∧ key ≠ [] then
    { info := info2, calledStartTLS := true, calledListenAndServe := false,
      fatal := StartTLS os caFile port }
  else
    { info := info2, calledStartTLS := false, calledListenAndServe := true,
      fatal :=
        match os.ListenAndServe with
        | some err => if err.isServerClosed then some err else none
        | none => none }

end Routes

/-! ## Templates and paths used to state the properties -/

namespace Routes

/-- The path `/s₁/s₂/.../sₙ` with the given segments. -/
def joinPath (segs : List GoString) : GoString := segs.flatMap (fun s => '/' :: s)

/-- The parameter segment `{k}` of a template. -/
def placeholder (k : GoString) : GoString := '{' :: (k ++ ['}'])

/-- A `GET` request for a path: empty store, no header fields. -/
def requestFor (p : GoString) : Request :=
  { Method := "GET".toList, RequestURI := p, RemoteAddr := [], URLPath := p,
    Header := [], ctx := [] }

/-- A segment that is plain text: not empty, and free of slashes and braces. -/
def IsLiteral (s : GoString) : Prop := s ≠ [] ∧ '/' ∉ s ∧ '{' ∉ s ∧ '}' ∉ s

instance (s : GoString) : Decidable (IsLiteral s) := by
  unfold IsLiteral; infer_instance

/-- The context after `n` successive calls of `Param(k)`. -/
def paramTimes (k : GoString) : Nat → HTTPContext → HTTPContext
  | 0, c => c
  | n + 1, c => paramTimes k n (c.Param k).2

/-- A handler in the manner of the one `main.go` registers for `/hello/{id}`: it
reads `Param(k)` and writes what it read to the response. -/
def echoParam (k : GoString) : ServiceHandleFunc :=
  fun c =>
    let (v, c1) := c.Param k
    some { c1 with w := c1.w.Write v }

/-- A handler that writes nothing and returns. -/
def idleHandler : HandlerFunc := fun w _ => some w

/-- An encoder for payloads that are strings without characters to escape: the
string between double quotes. -/
def quoteString (s : GoString) : Option GoString := some ('"' :: (s ++ ['"']))

/-- A machine whose working directory is `/srv`, whose certificates directory
has the given entries, and where no file can be opened. -/
def worldWithListing (files : List GoString) : World :=
  { Getwd := Except.ok "/srv".toList
    ReadDir := fun _ => Except.ok files
    Getenv := fun _ => []
    Stat := fun _ => Except.error (GoError.sys "no such file or directory".toList)
    ReadFile := fun _ => Except.error (GoError.sys "no such file or directory".toList)
    AppendCertsFromPEM := fun _ => false
    X509KeyPair := fun _ _ => none
    ConfigureServer := none
    Serve := none
    ListenAndServe := none }

/-- A machine whose working directory is `/srv`, with `cert.pem` and `key.pem`
listed in the certificates directory, where every file is a regular file of zero
bytes. -/
def worldWithEmptyCert : World :=
  { Getwd := Except.ok "/srv".toList
    ReadDir := fun _ => Except.ok ["cert.pem".toList, "key.pem".toList]
    Getenv := fun _ => []
    Stat := fun _ => Except.ok { IsDir := false, Size := 0 }
    ReadFile := fun _ => Except.ok []
    AppendCertsFromPEM := fun _ => false
    X509KeyPair := fun _ _ => none
    ConfigureServer := none
    Serve := none
    ListenAndServe := none }

/-- A machine with an empty certificates directory, on which `ListenAndServe`
returns the given error. -/
def worldListening (err : Option GoError) : World :=
  { worldWithListing [] with ListenAndServe := err }

/-- The error a plaintext server reports when its port is taken. -/
def bindError : GoError :=
  GoError.sys "listen tcp :8080: bind: address already in use".toList

/-- The text of a segment with every `{` and every `}` removed. -/
def stripBraces (v : GoString) : GoString :=
  v.filter (fun c => c != '{' && c != '}')

/-- A template segment that begins with `{` and whose text without braces is
not empty. -/
def isPlaceholder (v : GoString) : Bool :=
  Strings.HasPrefix v ['{'] && !(stripBraces v).isEmpty

/-- The name a template gives its parameter, read off the template: the text
without braces of the last segment that is a placeholder, and the empty string
when the template has none. -/
def lastPlaceholderName (path : GoString) : GoString :=
  (((Strings.Split path ['/']).reverse.find? isPlaceholder).map stripBraces).getD []

end Routes

/-! ## Lemmas about the string functions -/

namespace Strings

theorem Index_ge_neg_one (s sub : GoString) : -1 ≤ Index s sub := by
  induction s with
  | nil => unfold Index; split <;> omega
  | cons c t ih =>
    unfold Index
    split
    · omega
    · simp only []
      split <;> omega

theorem Index_at_start {s sub : GoString} (h : sub <+: s) : Index s sub = 0 := by
  cases s with
  | nil =>
    have : sub = [] := List.prefix_nil.mp h
    simp [Index, this]
  | cons c t =>
    have : sub.isPrefixOf (c :: t) = true := List.isPrefixOf_iff_prefix.mpr h
    simp [Index, this]

theorem Index_cons_skip {c : Char} {t sub : GoString} (h : ¬ sub <+: c :: t) :
    Index (c :: t) sub = if Index t sub < 0 then -1 else Index t sub + 1 := by
  have : sub.isPrefixOf (c :: t) = false := by
    rw [Bool.eq_false_iff]; intro hp; exact h (List.isPrefixOf_iff_prefix.mp hp)
  simp [Index, this]

theorem Index_nonneg_iff (s sub : GoString) : 0 ≤ Index s sub ↔ sub <:+: s := by
  induction s with
  | nil =>
    unfold Index
    constructor
    · intro h
      split at h
      · rename_i he; simp at he; subst he; exact List.infix_refl _
      · omega
    · intro h
      have : sub = [] := List.infix_nil.mp h
      simp [this]
  | cons c t ih =>
    by_cases hp : sub <+: c :: t
    · rw [Index_at_start hp]
      exact ⟨fun _ => hp.isInfix, fun _ => le_refl _⟩
    · rw [Index_cons_skip hp, List.infix_cons_iff]
      constructor
      · intro h
        split at h
        · omega
        · exact Or.inr (ih.mp (by omega))
      · rintro (h | h)
        · exact absurd h hp
        · have := ih.mpr h
          split <;> omega

theorem Contains_iff (s sub : GoString) : Contains s sub = true ↔ sub <:+: s := by
  simp [Contains, Index_nonneg_iff]

/-- The text from the first occurrence of `sub` on, when `sub` does not start
inside the part `a` that comes first. -/
theorem drop_Index_append (sub : GoString) :
    ∀ (a b : GoString), (∀ a1 a2, a = a1 ++ a2 → a2 ≠ [] → ¬ sub <+: a2 ++ b) →
      sub <:+: b → (a ++ b).drop (Index (a ++ b) sub).toNat = b.drop (Index b sub).toNat := by
  intro a
  induction a with
  | nil => intro b _ _; rfl
  | cons x a ih =>
    intro b hno hb
    have hp : ¬ sub <+: x :: (a ++ b) := hno [] (x :: a) rfl (by simp)
    have hrec := ih b (fun a1 a2 he hne => hno (x :: a1) a2 (by simp [he]) hne) hb
    have hin : sub <:+: a ++ b := List.IsInfix.trans hb (List.suffix_append a b).isInfix
    have h0 : 0 ≤ Index (a ++ b) sub := (Index_nonneg_iff _ _).mpr hin
    show (x :: (a ++ b)).drop (Index (x :: (a ++ b)) sub).toNat = _
    rw [Index_cons_skip hp, if_neg (by omega)]
    have : (Index (a ++ b) sub + 1).toNat = (Index (a ++ b) sub).toNat + 1 := by omega
    rw [this, List.drop_succ_cons, hrec]

end Strings

namespace Strings

theorem replaceAux_skip (old new : GoString) :
    ∀ (xs rest : GoString), replaceAux old new xs.length (xs ++ rest) = replaceAux old new 0 rest := by
  intro xs
  induction xs with
  | nil => intro rest; rfl
  | cons x xs ih => intro rest; simpa [replaceAux] using ih rest

theorem replaceAux_of_not_infix (old new : GoString) :
    ∀ s : GoString, ¬ old <:+: s → replaceAux old new 0 s = s := by
  intro s
  induction s with
  | nil => intro _; rfl
  | cons c t ih =>
    intro h
    have hp : old.isPrefixOf (c :: t) = false := by
      rw [Bool.eq_false_iff]; intro hp
      exact h (List.isPrefixOf_iff_prefix.mp hp).isInfix
    have ht : ¬ old <:+: t := fun hi => h (List.infix_cons hi)
    simp [replaceAux, hp, ih ht]

theorem replaceAux_prefix (old new rest : GoString) (hne : old ≠ []) :
    replaceAux old new 0 (old ++ rest) = new ++ replaceAux old new 0 rest := by
  cases old with
  | nil => exact absurd rfl hne
  | cons c t =>
    have hp : (c :: t).isPrefixOf (c :: (t ++ rest)) = true :=
      List.isPrefixOf_iff_prefix.mpr (List.prefix_append (c :: t) rest)
    have := replaceAux_skip (c :: t) new t rest
    show replaceAux (c :: t) new 0 (c :: (t ++ rest)) = _
    rw [replaceAux, if_pos hp]
    simp only [List.length_cons, Nat.add_sub_cancel]
    rw [this]

theorem ReplaceAll_of_ne_nil (s old new : GoString) (hne : old ≠ []) :
    ReplaceAll s old new = replaceAux old new 0 s := by
  cases old with
  | nil => exact absurd rfl hne
  | cons c t => simp [ReplaceAll]

/-- Removing a one-character string is filtering that character out. -/
theorem ReplaceAll_single (c : Char) :
    ∀ s : GoString, ReplaceAll s [c] [] = s.filter (fun x => x != c) := by
  intro s
  rw [ReplaceAll_of_ne_nil _ _ _ (by simp)]
  induction s with
  | nil => rfl
  | cons x t ih =>
    by_cases hx : x = c
    · subst hx
      simp [replaceAux, List.isPrefixOf, ih]
    · have : (x == c) = false := by simpa using hx
      simp [replaceAux, List.isPrefixOf, ih, this, hx, Ne.symm hx]

theorem ReplaceAll_single_of_not_mem (c : Char) (s : GoString) (h : c ∉ s) :
    ReplaceAll s [c] [] = s := by
  rw [ReplaceAll_single, List.filter_eq_self]
  intro a ha
  have : a ≠ c := fun e => h (e ▸ ha)
  simpa using this

/-- A string without the separator that is a prefix of `x ++ sep :: y` is a
prefix of `x`. -/
theorem prefix_of_prefix_append_sep {sep : Char} {l x y : GoString} (hsep : sep ∉ l)
    (h : l <+: x ++ sep :: y) : l <+: x := by
  rcases List.prefix_or_prefix_of_prefix h (List.prefix_append x (sep :: y)) with h1 | h1
  · exact h1
  · obtain ⟨w, rfl⟩ := h1
    cases w with
    | nil => simp
    | cons a w =>
      have h2 : a :: w <+: sep :: y := (List.prefix_append_right_inj x).mp h
      have : a = sep := by
        obtain ⟨z, hz⟩ := h2
        simp at hz
        exact hz.1
      exact absurd (by simp [this]) hsep

theorem infix_append_sep {sep : Char} {l : GoString} (hsep : sep ∉ l) (hne : l ≠ []) :
    ∀ (x y : GoString), l <:+: x ++ sep :: y → l <:+: x ∨ l <:+: y := by
  intro x
  induction x with
  | nil =>
    intro y h
    rcases List.infix_cons_iff.mp h with h1 | h1
    · have := prefix_of_prefix_append_sep (x := []) hsep h1
      exact absurd (List.prefix_nil.mp this) hne
    · exact Or.inr h1
  | cons a x ih =>
    intro y h
    rcases List.infix_cons_iff.mp h with h1 | h1
    · exact Or.inl (prefix_of_prefix_append_sep (x := a :: x) hsep h1).isInfix
    · rcases ih y h1 with h2 | h2
      · exact Or.inl (List.infix_cons h2)
      · exact Or.inr h2

theorem splitAux_of_not_mem (c : Char) :
    ∀ s : GoString, c ∉ s → splitAux [c] 0 s = [s] := by
  intro s
  induction s with
  | nil => intro _; rfl
  | cons x t ih =>
    intro h
    have hx : x ≠ c := fun e => h (by simp [e])
    have ht : c ∉ t := fun e => h (List.mem_cons_of_mem _ e)
    have : (c == x) = false := by simpa using (Ne.symm hx)
    simp [splitAux, List.isPrefixOf, this, ih ht]

theorem splitAux_append_sep (c : Char) :
    ∀ (a rest : GoString), c ∉ a →
      splitAux [c] 0 (a ++ c :: rest) = a :: splitAux [c] 0 rest := by
  intro a
  induction a with
  | nil => intro rest _; simp [splitAux, List.isPrefixOf]
  | cons x t ih =>
    intro rest h
    have hx : x ≠ c := fun e => h (by simp [e])
    have ht : c ∉ t := fun e => h (List.mem_cons_of_mem _ e)
    have : (c == x) = false := by simpa using (Ne.symm hx)
    simp [splitAux, List.isPrefixOf, this, ih rest ht]

end Strings

/-! ## Path parameters -/

namespace Routes
open Strings

theorem joinPath_cons (s : GoString) (segs : List GoString) :
    joinPath (s :: segs) = '/' :: (s ++ joinPath segs) := by
  simp [joinPath]

theorem joinPath_append (xs ys : List GoString) :
    joinPath (xs ++ ys) = joinPath xs ++ joinPath ys := by
  simp [joinPath]

theorem mem_joinPath {c : Char} {segs : List GoString} (h : c ∈ joinPath segs) :
    c = '/' ∨ ∃ s ∈ segs, c ∈ s := by
  simp only [joinPath, List.mem_flatMap, List.mem_cons] at h
  obtain ⟨s, hs, h1 | h1⟩ := h
  · exact Or.inl h1
  · exact Or.inr ⟨s, hs, h1⟩

theorem splitAux_append_joinPath :
    ∀ (segs : List GoString) (s : GoString), '/' ∉ s → (∀ t ∈ segs, '/' ∉ t) →
      splitAux ['/'] 0 (s ++ joinPath segs) = s :: segs := by
  intro segs
  induction segs with
  | nil => intro s hs _; simpa [joinPath] using splitAux_of_not_mem '/' s hs
  | cons t segs ih =>
    intro s hs h
    rw [joinPath_cons, splitAux_append_sep '/' s _ hs,
      ih t (h t (by simp)) (fun u hu => h u (List.mem_cons_of_mem _ hu))]

theorem Split_joinPath (segs : List GoString) (h : ∀ t ∈ segs, '/' ∉ t) :
    Split (joinPath segs) ['/'] = [] :: segs := by
  have := splitAux_append_joinPath segs [] (by simp) h
  simpa [Split] using this

theorem infix_joinPath {l : GoString} (hsep : '/' ∉ l) (hne : l ≠ []) :
    ∀ segs : List GoString, l <:+: joinPath segs → ∃ s ∈ segs, l <:+: s := by
  intro segs
  induction segs with
  | nil => intro h; exact absurd (List.infix_nil.mp (by simpa [joinPath] using h)) hne
  | cons s rest ih =>
    intro h
    rw [joinPath_cons] at h
    rcases infix_append_sep hsep hne [] _ h with h1 | h1
    · exact absurd (List.infix_nil.mp h1) hne
    · cases rest with
      | nil => exact ⟨s, by simp, by simpa [joinPath] using h1⟩
      | cons s' r =>
        rw [joinPath_cons] at h1
        rcases infix_append_sep hsep hne s _ h1 with h2 | h2
        · exact ⟨s, by simp, h2⟩
        · obtain ⟨u, hu, hiu⟩ := ih (by rw [joinPath_cons]; exact List.infix_cons h2)
          exact ⟨u, List.mem_cons_of_mem _ hu, hiu⟩

theorem HasPrefix_brace_of_not_mem {l : GoString} (h : '{' ∉ l) :
    HasPrefix l ['{'] = false := by
  cases l with
  | nil => rfl
  | cons a t =>
    have : a ≠ '{' := fun e => h (by simp [e])
    have h2 : ('{' == a) = false := by simpa using (Ne.symm this)
    simp [HasPrefix, List.isPrefixOf, h2]

theorem removeBraces_placeholder {k : GoString} (h1 : '{' ∉ k) (h2 : '}' ∉ k) :
    removeRightBrace (removeLeftBraces (placeholder k)) = k := by
  have e1 : removeLeftBraces (placeholder k) = k ++ ['}'] := by
    unfold removeLeftBraces placeholder
    rw [ReplaceAll_single]
    have : (k ++ ['}']).filter (fun x => x != '{') = k ++ ['}'] := by
      rw [List.filter_eq_self]
      intro a ha
      have : a ≠ '{' := by
        intro e; subst e
        rcases List.mem_append.mp ha with h | h
        · exact h1 h
        · simp at h
      simpa using this
    simp [List.filter_cons, this]
  rw [e1]
  unfold removeRightBrace
  rw [ReplaceAll_single, List.filter_append]
  have : k.filter (fun x => x != '}') = k := by
    rw [List.filter_eq_self]
    intro a ha
    have : a ≠ '}' := fun e => h2 (e ▸ ha)
    simpa using this
  simp [this]

end Routes

namespace Routes
open Strings

theorem splitPathStep_nil (urlPath pv : GoString) : splitPathStep urlPath pv [] = pv := by
  simp [splitPathStep]

theorem splitPathStep_of_not_infix {urlPath v : GoString} (pv : GoString)
    (h : ¬ v <:+: urlPath) : splitPathStep urlPath pv v = pv := by
  have : Contains urlPath v = false := by
    rw [Bool.eq_false_iff]; intro hc; exact h ((Contains_iff _ _).mp hc)
  simp [splitPathStep, this]

/-- The value the loop of `splitPath` computes at the last literal of the
template. -/
theorem splitPathStep_last (pre : List GoString) (l V pv : GoString)
    (hl : l ≠ []) (hsl : '/' ∉ l) (hpre : ∀ s ∈ pre, ¬ l <:+: s)
    (hV : '/' ∉ V) (hlV : ¬ l <:+: V) :
    splitPathStep (joinPath (pre ++ [l, V])) pv l = V := by
  have hurl : joinPath (pre ++ [l, V]) = (joinPath pre ++ ['/']) ++ (l ++ '/' :: V) := by
    simp [joinPath_append, joinPath_cons, joinPath]
  have hb : l <:+: l ++ '/' :: V := (List.prefix_append l _).isInfix
  have hno : ∀ a1 a2, joinPath pre ++ ['/'] = a1 ++ a2 → a2 ≠ [] →
      ¬ l <+: a2 ++ (l ++ '/' :: V) := by
    intro a1 a2 he hne hp
    obtain ⟨a2', c, rfl⟩ : ∃ a2' c, a2 = a2' ++ [c] := by
      rcases List.eq_nil_or_concat a2 with h | ⟨L, b, h⟩
      · exact absurd h hne
      · exact ⟨L, b, by simpa using h⟩
    rw [← List.append_assoc] at he
    have hc := List.append_inj' he rfl
    have hc2 : c = '/' := by simpa using hc.2.symm
    subst hc2
    have hp' : l <+: a2' ++ '/' :: (l ++ '/' :: V) := by simpa using hp
    have h1 : l <+: a2' := prefix_of_prefix_append_sep hsl hp'
    have h2 : l <:+: joinPath pre := by
      rw [hc.1]
      exact List.IsInfix.trans h1.isInfix (List.suffix_append a1 a2').isInfix
    obtain ⟨s, hs, hi⟩ := infix_joinPath hsl hl pre h2
    exact hpre s hs hi
  have hdrop := drop_Index_append l _ _ hno hb
  have hin : l <:+: joinPath (pre ++ [l, V]) := by
    rw [hurl]; exact List.IsInfix.trans hb (List.suffix_append _ _).isInfix
  have hcont : Contains (joinPath (pre ++ [l, V])) l = true := (Contains_iff _ _).mpr hin
  have hnot : ¬ l <:+: '/' :: V := by
    intro h
    rcases infix_append_sep hsl hl [] V h with h1 | h1
    · exact hl (List.infix_nil.mp h1)
    · exact hlV h1
  unfold splitPathStep
  rw [if_pos hl, if_pos hcont]
  simp only []
  rw [hurl, hdrop, Index_at_start (List.prefix_append l _)]
  simp only [Int.toNat_zero, List.drop_zero]
  rw [ReplaceAll_of_ne_nil _ _ _ hl, replaceAux_prefix _ _ _ hl, List.nil_append,
    replaceAux_of_not_infix _ _ _ hnot, ReplaceAll_single]
  have : V.filter (fun x => x != '/') = V := by
    rw [List.filter_eq_self]
    intro a ha
    have : a ≠ '/' := fun e => hV (e ▸ ha)
    simpa using this
  simp [List.filter_cons, this]

theorem not_placeholder_infix {k : GoString} {segs : List GoString}
    (h : ∀ s ∈ segs, '{' ∉ s) : ¬ placeholder k <:+: joinPath segs := by
  intro hi
  have hm : '{' ∈ joinPath segs := hi.subset (by simp [placeholder])
  rcases mem_joinPath hm with h1 | ⟨s, hs, h1⟩
  · exact absurd h1 (by decide)
  · exact h s hs h1

/-- The loop of `splitPath` for a template whose only parameter segment is the
last one: the result is the last path segment, whatever the value passed in. -/
theorem splitPath_trailing (pre : List GoString) (l k V pv : GoString)
    (hpre : ∀ s ∈ pre, '{' ∉ s ∧ ¬ l <:+: s) (hl : l ≠ []) (hsl : '/' ∉ l)
    (hbl : '{' ∉ l) (hV : '/' ∉ V) (hbV : '{' ∉ V) (hlV : ¬ l <:+: V) :
    splitPath ([] :: (pre ++ [l, placeholder k])) (joinPath (pre ++ [l, V])) pv = V := by
  unfold splitPath
  have hph : ¬ placeholder k <:+: joinPath (pre ++ [l, V]) := by
    apply not_placeholder_infix
    intro s hs
    simp only [List.mem_append, List.mem_cons, List.mem_singleton, List.not_mem_nil,
      or_false] at hs
    rcases hs with h | rfl | rfl
    · exact (hpre s h).1
    · exact hbl
    · exact hbV
  rw [List.foldl_cons, splitPathStep_nil, List.foldl_append]
  simp only [List.foldl_cons, List.foldl_nil]
  rw [splitPathStep_last pre l V _ hl hsl (fun s hs => (hpre s hs).2) hV hlV,
    splitPathStep_of_not_infix _ hph]

theorem setParamStep_literals (sp : List GoString) (url V : GoString)
    (hsp : ∀ pv, splitPath sp url pv = V) :
    ∀ (lits : List GoString) (key val : GoString),
      (∀ s ∈ lits, s ≠ [] ∧ '{' ∉ s) → lits ≠ [] →
      lits.foldl (setParamStep sp url) (key, val) = (key, V) := by
  intro lits
  induction lits with
  | nil => intro _ _ _ h; exact absurd rfl h
  | cons s rest ih =>
    intro key val h _
    have hs := h s (by simp)
    have hstep : setParamStep sp url (key, val) s = (key, V) := by
      simp [setParamStep, hs.1, HasPrefix_brace_of_not_mem hs.2, hsp]
    rw [List.foldl_cons, hstep]
    cases rest with
    | nil => rfl
    | cons s' r => exact ih key V (fun u hu => h u (List.mem_cons_of_mem _ hu)) (by simp)

/-- The loop of `setParam` for a template `/l₁/.../lₙ/{k}` and a path
`/l₁/.../lₙ/V`, when the last literal occurs neither in an earlier literal nor
in `V`. -/
theorem setParamLoop_trailing (pre : List GoString) (l k V : GoString)
    (hpre : ∀ s ∈ pre, IsLiteral s ∧ ¬ l <:+: s) (hl : IsLiteral l)
    (hk : IsLiteral k) (hV : '/' ∉ V) (hbV : '{' ∉ V) (hlV : ¬ l <:+: V) :
    setParamLoop (joinPath (pre ++ [l, placeholder k])) (joinPath (pre ++ [l, V])) = (k, V) := by
  obtain ⟨hl1, hl2, hl3, _⟩ := hl
  obtain ⟨hk1, hk2, hk3, hk4⟩ := hk
  have hsplit : Split (joinPath (pre ++ [l, placeholder k])) ['/']
      = [] :: (pre ++ [l, placeholder k]) := by
    apply Split_joinPath
    intro t ht
    simp only [List.mem_append, List.mem_cons, List.mem_singleton, List.not_mem_nil,
      or_false] at ht
    rcases ht with h | rfl | rfl
    · exact (hpre t h).1.2.1
    · exact hl2
    · simp [placeholder, hk2]
  have hsp : ∀ pv, splitPath ([] :: (pre ++ [l, placeholder k])) (joinPath (pre ++ [l, V])) pv = V :=
    fun pv => splitPath_trailing pre l k V pv (fun s hs => ⟨(hpre s hs).1.2.2.1, (hpre s hs).2⟩)
      hl1 hl2 hl3 hV hbV hlV
  unfold setParamLoop
  simp only []
  rw [hsplit]
  have hlits : (pre ++ [l]).foldl
      (setParamStep ([] :: (pre ++ [l, placeholder k])) (joinPath (pre ++ [l, V]))) ([], [])
      = ([], V) := by
    apply setParamStep_literals _ _ _ hsp
    · intro s hs
      simp only [List.mem_append, List.mem_singleton] at hs
      rcases hs with h | rfl
      · exact ⟨(hpre s h).1.1, (hpre s h).1.2.2.1⟩
      · exact ⟨hl1, hl3⟩
    · simp
  have hcat : pre ++ [l, placeholder k] = (pre ++ [l]) ++ [placeholder k] := by simp
  rw [List.foldl_cons]
  have h0 : setParamStep ([] :: (pre ++ [l, placeholder k])) (joinPath (pre ++ [l, V]))
      ([], []) [] = ([], []) := by simp [setParamStep]
  rw [h0]
  conv_lhs => arg 3; rw [hcat]
  rw [List.foldl_append, hlits]
  simp [setParamStep, placeholder, HasPrefix, List.isPrefixOf]
  have := removeBraces_placeholder hk3 hk4
  simp [placeholder] at this
  simp [this, hk1]

end Routes

namespace Routes
open Strings

/-- C1 (as stated, refuted): the template `/{id}/hello` has exactly one parameter
segment and the path `/123/hello` agrees with it on the literal segment, yet
`setParam` returns the request unchanged and `Param("id")` is empty; with the
parameter last, `/a/{id}` on `/a/banana` stores `bnn`, and `/abc/b/{id}` on
`/abc/b/1` stores `c1`. -/
theorem setParam_position_counterexample :
    setParam "/\x7bid\x7d/hello".toList (requestFor "/123/hello".toList)
        = requestFor "/123/hello".toList
    ∧ (HTTPContext.Param (NewMyContext (ResponseWriter.fresh [])
        (setParam "/\x7bid\x7d/hello".toList (requestFor "/123/hello".toList)))
        "id".toList).1 = []
    ∧ Context.Value (setParam "/a/\x7bid\x7d".toList (requestFor "/a/banana".toList)).ctx
        "id".toList = GoAny.str "bnn".toList
    ∧ Context.Value (setParam "/abc/b/\x7bid\x7d".toList (requestFor "/abc/b/1".toList)).ctx
        "id".toList = GoAny.str "c1".toList := by
  decide

/-- C1 (amended): for a template `/l₁/.../lₙ/{k}` whose single parameter segment
is the last one, and a path `/l₁/.../lₙ/V` with the same literals, where the last
literal `lₙ` occurs neither inside an earlier literal nor inside `V`, `setParam`
stores exactly `V` under `k` and the handler's `Param(k)` returns `V`. -/
theorem setParam_trailing_parameter (pre : List GoString) (l k V : GoString)
    (w : ResponseWriter) (r : Request)
    (hpre : ∀ s ∈ pre, IsLiteral s ∧ ¬ l <:+: s) (hl : IsLiteral l) (hk : IsLiteral k)
    (hV : V ≠ [] ∧ '/' ∉ V ∧ '{' ∉ V) (hlV : ¬ l <:+: V)
    (hr : r.URLPath = joinPath (pre ++ [l, V])) :
    Context.Value (setParam (joinPath (pre ++ [l, placeholder k])) r).ctx k = GoAny.str V
    ∧ (HTTPContext.Param
        (NewMyContext w (setParam (joinPath (pre ++ [l, placeholder k])) r)) k).1 = V := by
  have hloop := setParamLoop_trailing pre l k V hpre hl hk hV.2.1 hV.2.2 hlV
  have hs : setParam (joinPath (pre ++ [l, placeholder k])) r
      = r.WithContext (Context.WithValue r.ctx k (GoAny.str V)) := by
    unfold setParam
    simp only []
    rw [hr, hloop]
    simp [hk.1, hV.1]
  rw [hs]
  simp [HTTPContext.Param, NewMyContext, Request.WithContext, Context.WithValue,
    Context.Value]

theorem setParam_trailing_parameter_witness :
    Context.Value (setParam "/api/users/\x7bid\x7d".toList
        (requestFor "/api/users/42".toList)).ctx "id".toList = GoAny.str "42".toList
    ∧ (HTTPContext.Param (NewMyContext (ResponseWriter.fresh [])
        (setParam "/api/users/\x7bid\x7d".toList (requestFor "/api/users/42".toList)))
        "id".toList).1 = "42".toList :=
  setParam_trailing_parameter ["api".toList] "users".toList "id".toList "42".toList
    (ResponseWriter.fresh []) (requestFor "/api/users/42".toList)
    (by decide) (by decide) (by decide) (by decide) (by decide) (by decide)

/-- C2: for non-empty `L`, `k`, `V` free of `/`, `{`, `}` with `L` not a substring
of `V`, `setParam` on the template `/L/{k}` and a request for `/L/V` returns the
request with `k` bound to exactly `V` in its store. -/
theorem setParam_single_literal (L k V : GoString) (r : Request)
    (hL : IsLiteral L) (hk : IsLiteral k) (hV : IsLiteral V) (hLV : ¬ L <:+: V)
    (hr : r.URLPath = '/' :: (L ++ '/' :: V)) :
    setParam ('/' :: (L ++ '/' :: '{' :: (k ++ ['}']))) r
        = r.WithContext (Context.WithValue r.ctx k (GoAny.str V))
    ∧ Context.Value (setParam ('/' :: (L ++ '/' :: '{' :: (k ++ ['}']))) r).ctx k
        = GoAny.str V := by
  have hloop := setParamLoop_trailing [] L k V (by simp) hL hk hV.2.1 hV.2.2.1 hLV
  have ht : joinPath ([] ++ [L, placeholder k]) = '/' :: (L ++ '/' :: '{' :: (k ++ ['}'])) := by
    simp [joinPath, placeholder]
  have hp : joinPath ([] ++ [L, V]) = '/' :: (L ++ '/' :: V) := by
    simp [joinPath]
  rw [ht, hp] at hloop
  have hs : setParam ('/' :: (L ++ '/' :: '{' :: (k ++ ['}']))) r
      = r.WithContext (Context.WithValue r.ctx k (GoAny.str V)) := by
    unfold setParam
    simp only []
    rw [hr, hloop]
    simp [hk.1, hV.1]
  rw [hs]
  simp [Request.WithContext, Context.WithValue, Context.Value]

theorem setParam_single_literal_witness :
    setParam "/hello/\x7bid\x7d".toList (requestFor "/hello/123".toList)
        = (requestFor "/hello/123".toList).WithContext
            (Context.WithValue [] "id".toList (GoAny.str "123".toList))
    ∧ Context.Value (setParam "/hello/\x7bid\x7d".toList
        (requestFor "/hello/123".toList)).ctx "id".toList = GoAny.str "123".toList :=
  setParam_single_literal "hello".toList "id".toList "123".toList
    (requestFor "/hello/123".toList) (by decide) (by decide) (by decide) (by decide)
    (by decide)

end Routes

/-! ## The request context -/

namespace Routes

theorem Value_after_Param (c : HTTPContext) (k : GoString) :
    Context.Value (c.Param k).2.r.ctx k = GoAny.nil := by
  simp [HTTPContext.Param, Request.WithContext, Context.WithValue, Context.Value]

theorem Value_of_absent (k : GoString) :
    ∀ ctx : Context, (∀ v, (k, v) ∉ ctx) → Context.Value ctx k = GoAny.nil := by
  intro ctx
  induction ctx with
  | nil => intro _; rfl
  | cons p rest ih =>
    intro h
    obtain ⟨k', v'⟩ := p
    have hne : k' ≠ k := by
      intro e; subst e; exact h v' (by simp)
    simp only [Context.Value, if_neg hne]
    exact ih (fun v hv => h v (List.mem_cons_of_mem _ hv))

theorem Value_paramTimes (k : GoString) :
    ∀ (n : Nat) (c : HTTPContext),
      Context.Value (paramTimes k (n + 1) c).r.ctx k = GoAny.nil := by
  intro n
  induction n with
  | zero => intro c; exact Value_after_Param c k
  | succ n ih => intro c; exact ih (c.Param k).2

/-- C3: `Param` is a one-shot read.  The first `Param(k)` returns the string
stored under `k`, and the empty string when `k` is absent or bound to a value
that is not a string; after one or more calls of `Param(k)`, `Param(k)` returns
the empty string and `Get(k)` returns nil, until `k` is `Set` again. -/
theorem Param_one_shot (c : HTTPContext) (k : GoString) :
    (∀ s, Context.Value c.r.ctx k = GoAny.str s → (c.Param k).1 = s)
    ∧ ((∀ v, (k, v) ∉ c.r.ctx) → (c.Param k).1 = [])
    ∧ ((∀ s, Context.Value c.r.ctx k ≠ GoAny.str s) → (c.Param k).1 = [])
    ∧ (∀ n, ((paramTimes k (n + 1) c).Param k).1 = []
        ∧ ((paramTimes k (n + 1) c).Get k).1 = GoAny.nil)
    ∧ (∀ n v, (((paramTimes k (n + 1) c).Set k v).Get k).1 = v) := by
  refine ⟨?_, ?_, ?_, ?_, ?_⟩
  · intro s hs
    simp [HTTPContext.Param, hs]
  · intro h
    simp [HTTPContext.Param, Value_of_absent k c.r.ctx h]
  · intro h
    cases hv : Context.Value c.r.ctx k with
    | nil => simp [HTTPContext.Param, hv]
    | str s => exact absurd hv (h s)
    | other t => simp [HTTPContext.Param, hv]
  · intro n
    have h := Value_paramTimes k n c
    exact ⟨by simp [HTTPContext.Param, h], by simp [HTTPContext.Get, h]⟩
  · intro n v
    simp [HTTPContext.Set, HTTPContext.Get, Request.WithContext, Context.WithValue,
      Context.Value]

theorem Param_one_shot_witness :
    ((NewMyContext (ResponseWriter.fresh [])
        ((requestFor "/".toList).WithContext
          [("key".toList, GoAny.str "value".toList)])).Param "key".toList).1
      = "value".toList :=
  (Param_one_shot (NewMyContext (ResponseWriter.fresh [])
      ((requestFor "/".toList).WithContext [("key".toList, GoAny.str "value".toList)]))
    "key".toList).1 "value".toList (by decide)

/-- C4: the request store is a finite map under `Set` and `Get`.  After
`Set(k, v)`, `Get(k)` returns `v` and `Get(k')` for another key returns what it
returned before; `Get` leaves the context unchanged, so a second `Get(k)`
returns the same value. -/
theorem Set_Get_finite_map (c : HTTPContext) (k : GoString) (v : GoAny) :
    ((c.Set k v).Get k).1 = v
    ∧ (∀ k', k' ≠ k → ((c.Set k v).Get k').1 = (c.Get k').1)
    ∧ (c.Get k).2 = c
    ∧ ((c.Get k).2.Get k).1 = (c.Get k).1 := by
  refine ⟨?_, ?_, rfl, rfl⟩
  · simp [HTTPContext.Set, HTTPContext.Get, Request.WithContext, Context.WithValue,
      Context.Value]
  · intro k' hk
    simp [HTTPContext.Set, HTTPContext.Get, Request.WithContext, Context.WithValue,
      Context.Value, Ne.symm hk]

theorem Set_Get_finite_map_witness :
    (((NewMyContext (ResponseWriter.fresh []) (requestFor "/".toList)).Set
        "user".toList (GoAny.other 7)).Get "role".toList).1 = GoAny.nil :=
  ((Set_Get_finite_map (NewMyContext (ResponseWriter.fresh []) (requestFor "/".toList))
    "user".toList (GoAny.other 7)).2.1 "role".toList (by decide)).trans (by decide)

theorem Header_values_Set_of_ne (h : Header) (k v name : GoString) (hne : name ≠ k) :
    Header.values (Header.Set h k v) name = Header.values h name := by
  simp [Header.Set, Header.values, Ne.symm hne]

theorem Header_Get_Set (h : Header) (k v : GoString) : Header.Get (Header.Set h k v) k = v := by
  simp [Header.Set, Header.values, Header.Get]

theorem Header_Get_Set_of_ne (h : Header) (k v name : GoString) (hne : name ≠ k) :
    Header.Get (Header.Set h k v) name = Header.Get h name := by
  unfold Header.Get
  rw [Header_values_Set_of_ne h k v name hne]

theorem Write_HeaderMap (w : ResponseWriter) (buf : GoString) (hw : w.wroteHeader = true) :
    (w.Write buf).HeaderMap = w.HeaderMap ∧ (w.Write buf).Code = w.Code := by
  unfold ResponseWriter.Write
  cases hk : w.kind with
  | recorder => simp [hw]
  | server =>
    simp only [hw, if_true]
    split
    · exact ⟨rfl, rfl⟩
    · split
      · exact ⟨rfl, rfl⟩
      · split
        · exact ⟨rfl, rfl⟩
        · split <;> exact ⟨rfl, rfl⟩
  | server2 =>
    simp only [hw, if_true]
    split
    · exact ⟨rfl, rfl⟩
    · split
      · exact ⟨rfl, rfl⟩
      · split <;> split <;> exact ⟨rfl, rfl⟩

theorem Write_Body (w : ResponseWriter) (buf : GoString) (hw : w.wroteHeader = true)
    (hbuf : buf ≠ []) (hbody : bodyAllowedForStatus w.Code = true) (hhead : w.head = false)
    (hcl : w.contentLength = -1) (hsent : w.sentContentLen = 0) :
    (w.Write buf).Body = w.Body ++ buf := by
  unfold ResponseWriter.Write
  cases hk : w.kind with
  | recorder => simp [hw]
  | server =>
    simp only [hw, if_true]
    rw [if_neg hbuf, if_neg (by simp [hbody])]
    rw [if_neg (by simp [hcl]), if_neg (by simp [hhead])]
  | server2 =>
    simp only [hw, if_true]
    rw [if_neg (by simp [hbody])]
    rw [if_neg (by simp [hsent])]
    split <;> simp [hhead]

theorem bodyAllowedForStatus_of_ge (code : Int)
    (h : 200 ≤ code ∧ code ≠ 204 ∧ code ≠ 304) : bodyAllowedForStatus code = true := by
  have h1 : ¬ (100 ≤ code ∧ code ≤ 199) := by omega
  simp [bodyAllowedForStatus, h1, h.2.1, h.2.2]

/-- For a final status code, on a writer without a `Content-Length` header,
`WriteHeader` records the code and changes nothing else. -/
theorem setStatus_final (w : ResponseWriter) (code : Int) (hcode : 200 ≤ code)
    (hcl : Header.Get w.HeaderMap Header.ContentLength = [])
    (hsnap : w.snapContentLength = []) :
    w.setStatus code = { w with Code := code, wroteHeader := true } := by
  have h1 : ¬ (100 ≤ code ∧ code ≤ 199 ∧ code ≠ 101) := by omega
  have h2 : ¬ (100 ≤ code ∧ code ≤ 199) := by omega
  unfold ResponseWriter.setStatus
  cases hk : w.kind with
  | recorder => rfl
  | server =>
    rw [if_neg h1, if_pos hcl]
  | server2 =>
    rw [if_neg h2, hcl, ← hsnap]

/-- C5 (as stated, refuted): with status code `0`, `WriteHeader` panics and
`JSON` records neither status nor body; on the server's writer, `JSON(204, x)`
writes no body, `JSON(103, x)` sends `103` as an informational response and
records the status `200`, `JSON(200, x)` writes no body when `Content-Length: 1`
was set before or when the request is a `HEAD` request. -/
theorem JSON_status_code_counterexample :
    HTTPContext.JSON quoteString
        (NewMyContext (ResponseWriter.fresh []) (requestFor "/".toList)) 0 "Hello".toList
      = none
    ∧ (HTTPContext.JSON quoteString
        (NewMyContext (ResponseWriter.new WriterKind.server []) (requestFor "/".toList))
        204 "Hello".toList).map (fun c => c.w.Body) = some []
    ∧ (HTTPContext.JSON quoteString
        (NewMyContext (ResponseWriter.new WriterKind.server []) (requestFor "/".toList))
        103 "Hello".toList).map (fun c => c.w.Code) = some 200
    ∧ (HTTPContext.JSON quoteString
        (NewMyContext
          (ResponseWriter.new WriterKind.server [(Header.ContentLength, ["1".toList])])
          (requestFor "/".toList))
        200 "Hello".toList).map (fun c => c.w.Body) = some []
    ∧ (HTTPContext.JSON quoteString
        (NewMyContext { ResponseWriter.new WriterKind.server [] with head := true }
          (requestFor "/".toList))
        200 "Hello".toList).map (fun c => c.w.Body) = some [] := by
  decide

/-- C5 (amended): for a status code from 200 to 999 other than 204 and 304 and
a payload that has a JSON encoding `b`, `JSON(code, payload)` on a response to
which nothing has been written, on which no `Content-Length` is set and which
does not answer a `HEAD` request, sets `Content-Type` to
`application/json; charset=UTF8`, records the status code, writes `b` followed
by one newline as the body, and leaves every other response header as it was;
this for the recorder of the tests and for both writers of the server. -/
theorem JSON_writes_response {α : Type} (marshal : α → Option GoString) (kind : WriterKind)
    (h : Header) (r : Request) (code : Int) (obj : α) (b : GoString)
    (hcode : 200 ≤ code ∧ code ≤ 999 ∧ code ≠ 204 ∧ code ≠ 304)
    (hb : marshal obj = some b)
    (hcl : Header.Get h Header.ContentLength = []) :
    ∃ c', HTTPContext.JSON marshal (NewMyContext (ResponseWriter.new kind h) r) code obj
        = some c'
      ∧ Header.Get c'.w.HeaderMap "Content-Type".toList
          = "application/json; charset=UTF8".toList
      ∧ c'.w.Code = code
      ∧ c'.w.Body = b ++ ['\n']
      ∧ (∀ name, name ≠ "Content-Type".toList →
          Header.values c'.w.HeaderMap name = Header.values h name)
      ∧ c'.r = r := by
  have h1 : ¬ (code < 100 ∨ code > 999) := by omega
  have hcl' : Header.Get (Header.Set h HTTPContext.ContentType HTTPContext.jsonUTF8)
      Header.ContentLength = [] := by
    rw [Header_Get_Set_of_ne _ _ _ _ (by decide)]
    exact hcl
  have hw1 : ∃ w1 : ResponseWriter,
      w1 = { ResponseWriter.new kind h with
             HeaderMap := Header.Set h HTTPContext.ContentType HTTPContext.jsonUTF8 } :=
    ⟨_, rfl⟩
  obtain ⟨w1, hw1⟩ := hw1
  have hJ0 : HTTPContext.JSON marshal (NewMyContext (ResponseWriter.new kind h) r) code obj
      = (match w1.WriteHeader code with
        | none => none
        | some w2 => some { w := HTTPContext.Encode marshal w2 obj, r := r }) := by
    rw [hw1]
    rfl
  have hset : w1.setStatus code = { w1 with Code := code, wroteHeader := true } :=
    setStatus_final w1 code hcode.1 (by rw [hw1]; exact hcl') (by rw [hw1]; rfl)
  have hwh : w1.WriteHeader code = some { w1 with Code := code, wroteHeader := true } := by
    unfold ResponseWriter.WriteHeader
    rw [if_neg (by rw [hw1]; simp [ResponseWriter.new]), if_neg h1, hset]
  have hmap := Write_HeaderMap { w1 with Code := code, wroteHeader := true } (b ++ ['\n']) rfl
  have hbody := Write_Body { w1 with Code := code, wroteHeader := true } (b ++ ['\n']) rfl
    (by simp) (bodyAllowedForStatus_of_ge code ⟨hcode.1, hcode.2.2.1, hcode.2.2.2⟩)
    (by rw [hw1]; rfl) (by rw [hw1]; rfl) (by rw [hw1]; rfl)
  have hJ : HTTPContext.JSON marshal (NewMyContext (ResponseWriter.new kind h) r) code obj
      = some { w := ResponseWriter.Write { w1 with Code := code, wroteHeader := true }
                  (b ++ ['\n']),
               r := r } := by
    rw [hJ0, hwh]
    simp only [HTTPContext.Encode, hb]
  refine ⟨_, hJ, ?_, ?_, ?_, ?_, rfl⟩
  · show Header.Get (ResponseWriter.Write _ _).HeaderMap _ = _
    rw [hmap.1, hw1]
    exact Header_Get_Set _ _ _
  · show (ResponseWriter.Write _ _).Code = _
    rw [hmap.2]
  · show (ResponseWriter.Write _ _).Body = _
    rw [hbody, hw1]
    rfl
  · intro name hne
    show Header.values (ResponseWriter.Write _ _).HeaderMap _ = _
    rw [hmap.1, hw1]
    exact Header_values_Set_of_ne _ _ _ _ hne

theorem JSON_writes_response_witness :
    ∃ c', HTTPContext.JSON quoteString
        (NewMyContext (ResponseWriter.new WriterKind.server [(XSession, ["r-1".toList])])
          (requestFor "/test".toList)) 200 "Hello".toList = some c'
      ∧ Header.Get c'.w.HeaderMap "Content-Type".toList
          = "application/json; charset=UTF8".toList
      ∧ c'.w.Code = 200
      ∧ c'.w.Body = "\"Hello\"".toList ++ ['\n']
      ∧ (∀ name, name ≠ "Content-Type".toList →
          Header.values c'.w.HeaderMap name
            = Header.values [(XSession, ["r-1".toList])] name)
      ∧ c'.r = requestFor "/test".toList :=
  JSON_writes_response quoteString WriterKind.server [(XSession, ["r-1".toList])]
    (requestFor "/test".toList) 200 "Hello".toList "\"Hello\"".toList
    (by decide) (by decide) (by decide)

end Routes

/-! ## The logging wrapper -/

namespace Routes

/-- C6: the logging wrapper, with a generator that returns a non-empty id.  A
response header `X-Request-Id` that is already non-empty is left as it is, an
empty one is set to the new id; when the wrapped handler is invoked the header
is non-empty and is the string stored under `X-Request-Id` in the request
store, so `GetSession()` and `Get("X-Request-Id")` agree; the entry logged once
the handler returns carries the same id as `sessionId`. -/
theorem Logger_session_id (newId : GoString) (start finish : Int) (next : HandlerFunc)
    (w : ResponseWriter) (r : Request) (hid : newId ≠ []) :
    (Header.Get w.HeaderMap XSession ≠ [] →
        (Logger newId start finish next w r).wNext = w)
    ∧ (Header.Get w.HeaderMap XSession = [] →
        Header.Get (Logger newId start finish next w r).wNext.HeaderMap XSession = newId)
    ∧ Header.Get (Logger newId start finish next w r).wNext.HeaderMap XSession ≠ []
    ∧ Context.Value (Logger newId start finish next w r).rNext.ctx XSession
        = GoAny.str (Header.Get (Logger newId start finish next w r).wNext.HeaderMap XSession)
    ∧ ((NewMyContext (Logger newId start finish next w r).wNext
          (Logger newId start finish next w r).rNext).Get XSession).1
        = GoAny.str (NewMyContext (Logger newId start finish next w r).wNext
          (Logger newId start finish next w r).rNext).GetSession
    ∧ (Logger newId start finish next w r).done.map (fun p => (p.1, p.2.sessionId))
        = (next (Logger newId start finish next w r).wNext
            (Logger newId start finish next w r).rNext).map (fun w2 =>
              (w2, Header.Get (Logger newId start finish next w r).wNext.HeaderMap
                XSession)) := by
  by_cases h : Header.Get w.HeaderMap XSession = []
  · have hw : (Logger newId start finish next w r).wNext
        = { w with HeaderMap := Header.Set w.HeaderMap XSession newId } := by
      simp [Logger, h]
    have hr : (Logger newId start finish next w r).rNext
        = r.WithContext (Context.WithValue r.ctx XSession (GoAny.str newId)) := by
      simp [Logger, h]
    have hg : Header.Get (Header.Set w.HeaderMap XSession newId) XSession = newId :=
      Header_Get_Set _ _ _
    refine ⟨fun hne => absurd h hne, fun _ => by rw [hw]; exact hg, by rw [hw]; simpa [hg] using hid,
      ?_, ?_, ?_⟩
    · rw [hw, hr]
      simp [hg, Request.WithContext, Context.WithValue, Context.Value]
    · rw [hw, hr]
      simp [HTTPContext.Get, HTTPContext.GetSession, NewMyContext, hg, Request.WithContext,
        Context.WithValue, Context.Value]
    · rw [hw, hr, hg]
      simp [Logger, h, Option.map_map, Function.comp_def, Request.WithContext]
  · have hw : (Logger newId start finish next w r).wNext = w := by
      simp [Logger, h]
    have hr : (Logger newId start finish next w r).rNext
        = r.WithContext (Context.WithValue r.ctx XSession
            (GoAny.str (Header.Get w.HeaderMap XSession))) := by
      simp [Logger, h]
    refine ⟨fun _ => hw, fun he => absurd he h, by rw [hw]; exact h, ?_, ?_, ?_⟩
    · rw [hw, hr]
      simp [Request.WithContext, Context.WithValue, Context.Value]
    · rw [hw, hr]
      simp [HTTPContext.Get, HTTPContext.GetSession, NewMyContext, Request.WithContext,
        Context.WithValue, Context.Value]
    · rw [hw, hr]
      simp [Logger, h, Option.map_map, Function.comp_def, Request.WithContext]

theorem Logger_session_id_witness :
    Header.Get (Logger "6ba7b810".toList 0 5 idleHandler (ResponseWriter.fresh [])
        (requestFor "/hello".toList)).wNext.HeaderMap XSession = "6ba7b810".toList :=
  (Logger_session_id "6ba7b810".toList 0 5 idleHandler (ResponseWriter.fresh [])
    (requestFor "/hello".toList) (by decide)).2.1 (by decide)

/-- C7 (as stated, refuted): a request that arrives with the header
`X-Request-Id: abc` on a response whose own header map is empty does not keep
`abc`: a new id is generated and it is the id of the response, of the store and
of the log entry. -/
theorem Logger_request_header_counterexample :
    (Logger "6ba7b810".toList 0 5 idleHandler (ResponseWriter.fresh [])
        { requestFor "/hello".toList with
          Header := [(XSession, ["abc".toList])] }).uuidCalls = 1
    ∧ Header.Get (Logger "6ba7b810".toList 0 5 idleHandler (ResponseWriter.fresh [])
        { requestFor "/hello".toList with
          Header := [(XSession, ["abc".toList])] }).wNext.HeaderMap XSession
        = "6ba7b810".toList
    ∧ Context.Value (Logger "6ba7b810".toList 0 5 idleHandler (ResponseWriter.fresh [])
        { requestFor "/hello".toList with
          Header := [(XSession, ["abc".toList])] }).rNext.ctx XSession
        = GoAny.str "6ba7b810".toList
    ∧ ((Logger "6ba7b810".toList 0 5 idleHandler (ResponseWriter.fresh [])
        { requestFor "/hello".toList with
          Header := [(XSession, ["abc".toList])] }).done.map (fun p => p.2.sessionId))
        = some "6ba7b810".toList := by
  decide

/-- C7 (amended): when the response header `X-Request-Id` already has a
non-empty value `v` as the wrapper starts, the wrapper keeps it: the response
header, the id in the request store and the logged `sessionId` are all `v` and
`uuid.NewString` is not called; the header fields of the incoming request play
no part in this. -/
theorem Logger_preserves_response_id (newId v : GoString) (start finish : Int)
    (next : HandlerFunc) (w : ResponseWriter) (r : Request)
    (hv : v ≠ []) (hw : Header.Get w.HeaderMap XSession = v) :
    (Logger newId start finish next w r).wNext = w
    ∧ Header.Get (Logger newId start finish next w r).wNext.HeaderMap XSession = v
    ∧ Context.Value (Logger newId start finish next w r).rNext.ctx XSession = GoAny.str v
    ∧ (Logger newId start finish next w r).uuidCalls = 0
    ∧ (∀ w2 e, (Logger newId start finish next w r).done = some (w2, e) → e.sessionId = v)
    ∧ (∀ h : Header,
        (Logger newId start finish next w { r with Header := h }).wNext
            = (Logger newId start finish next w r).wNext
        ∧ (Logger newId start finish next w { r with Header := h }).rNext.ctx
            = (Logger newId start finish next w r).rNext.ctx
        ∧ (Logger newId start finish next w { r with Header := h }).uuidCalls
            = (Logger newId start finish next w r).uuidCalls) := by
  have h : ¬ Header.Get w.HeaderMap XSession = [] := by rw [hw]; exact hv
  refine ⟨by simp [Logger, h], by simp [Logger, h, hw, hv], ?_, by simp [Logger, h], ?_, ?_⟩
  · simp [Logger, h, hw, hv, Request.WithContext, Context.WithValue, Context.Value]
  · intro w2 e he
    simp only [Logger, h, decide_False, if_false, Bool.false_eq_true, Option.map_eq_some',
      Prod.mk.injEq] at he
    obtain ⟨_, _, _, rfl⟩ := he
    exact hw
  · intro hdr
    simp [Logger, h, Request.WithContext]

theorem Logger_preserves_response_id_witness :
    (Logger "6ba7b810".toList 0 5 idleHandler
        (ResponseWriter.fresh [(XSession, ["abc".toList])])
        (requestFor "/hello".toList)).uuidCalls = 0 :=
  (Logger_preserves_response_id "6ba7b810".toList "abc".toList 0 5 idleHandler
    (ResponseWriter.fresh [(XSession, ["abc".toList])]) (requestFor "/hello".toList)
    (by decide) (by decide)).2.2.2.1

end Routes

/-! ## Dispatch and server start -/

namespace Routes
open Strings

/-- C8: the closures registered by `GET`, `POST`, `PUT` and `DELETE` are one and
the same function, which invokes the handler on a context built from
`setParam(T, r)`; the closure registered by `PATCH` invokes the handler on a
context built from `r` itself, so the store the handler sees is the store of
`r`.  For `/hello/{id}` and the path `/hello/123`, a handler that writes
`Param("id")` writes `123` under `GET` and nothing under `PATCH`. -/
theorem dispatch_GET_POST_PUT_DELETE_not_PATCH :
    GET = POST ∧ POST = PUT ∧ PUT = DELETE
    ∧ (∀ (T : GoString) (h : ServiceHandleFunc) (w : ResponseWriter) (r : Request),
        GET T h w r = (h (NewMyContext w (setParam T r))).map (fun c => c.w))
    ∧ (∀ (T : GoString) (h : ServiceHandleFunc) (w : ResponseWriter) (r : Request),
        PATCH T h w r = (h (NewMyContext w r)).map (fun c => c.w)
        ∧ (NewMyContext w r).r.ctx = r.ctx)
    ∧ (GET "/hello/\x7bid\x7d".toList (echoParam "id".toList) (ResponseWriter.fresh [])
          (requestFor "/hello/123".toList)).map (fun w => w.Body) = some "123".toList
    ∧ (PATCH "/hello/\x7bid\x7d".toList (echoParam "id".toList) (ResponseWriter.fresh [])
          (requestFor "/hello/123".toList)).map (fun w => w.Body) = some [] := by
  refine ⟨rfl, rfl, rfl, fun _ _ _ _ => rfl, fun _ _ _ _ => ⟨rfl, rfl⟩, ?_, ?_⟩
  · decide
  · decide

theorem certKeyStep_fold (pwd : GoString) :
    ∀ (files : List GoString) (st : GoString × GoString),
      (files.foldl (certKeyStep pwd) st).1
          = (if files.any (fun n => Contains n "cert.pem".toList)
              then pwd ++ "/certificates/cert.pem".toList else st.1)
      ∧ (files.foldl (certKeyStep pwd) st).2
          = (if files.any (fun n => !Contains n "cert.pem".toList
                && Contains n "key.pem".toList)
              then pwd ++ "/certificates/key.pem".toList else st.2) := by
  intro files
  induction files with
  | nil => intro st; exact ⟨rfl, rfl⟩
  | cons n rest ih =>
    intro st
    rw [List.foldl_cons]
    have h := ih (certKeyStep pwd st n)
    rw [h.1, h.2]
    cases hc : Contains n "cert.pem".toList with
    | true =>
      have hs : certKeyStep pwd st n = (pwd ++ "/certificates/cert.pem".toList, st.2) := by
        unfold certKeyStep
        rw [if_pos hc]
      rw [hs]
      simp only [List.any_cons, hc, Bool.true_or, Bool.not_true, Bool.false_and,
        Bool.false_or, if_true, ite_self, true_and]
    | false =>
      have hc' : ¬ Contains n "cert.pem".toList = true := by rw [hc]; decide
      cases hk : Contains n "key.pem".toList with
      | true =>
        have hs : certKeyStep pwd st n = (st.1, pwd ++ "/certificates/key.pem".toList) := by
          unfold certKeyStep
          rw [if_neg hc', if_pos hk]
        rw [hs]
        simp only [List.any_cons, hc, hk, Bool.false_or, Bool.not_false, Bool.true_and,
          Bool.true_or, if_true, ite_self, and_self]
      | false =>
        have hk' : ¬ Contains n "key.pem".toList = true := by rw [hk]; decide
        have hs : certKeyStep pwd st n = st := by
          unfold certKeyStep
          rw [if_neg hc', if_neg hk']
        rw [hs]
        simp only [List.any_cons, hc, hk, Bool.false_or, Bool.not_false, Bool.true_and,
          and_self]

theorem ReadCertAndKey_of_listing (os : World) (pwd : GoString) (files : List GoString)
    (hwd : os.Getwd = Except.ok pwd)
    (hdir : os.ReadDir (pwd ++ "/certificates".toList) = Except.ok files) :
    ReadCertAndKey os
      = ((if files.any (fun n => Contains n "cert.pem".toList)
            then pwd ++ "/certificates/cert.pem".toList else []),
         (if files.any (fun n => !Contains n "cert.pem".toList
              && Contains n "key.pem".toList)
            then pwd ++ "/certificates/key.pem".toList else []),
         none) := by
  unfold ReadCertAndKey
  rw [hwd]
  simp only []
  rw [hdir]
  simp only []
  rw [(certKeyStep_fold pwd files ([], [])).1, (certKeyStep_fold pwd files ([], [])).2]

end Routes

namespace Routes
open Strings

theorem certPath_ne_nil (pwd : GoString) : pwd ++ "/certificates/cert.pem".toList ≠ [] :=
  List.append_ne_nil_of_right_ne_nil _ (by decide)

theorem keyPath_ne_nil (pwd : GoString) : pwd ++ "/certificates/key.pem".toList ≠ [] :=
  List.append_ne_nil_of_right_ne_nil _ (by decide)

/-- The goroutine of `Start` when the listing has a name containing `cert.pem`
and a name containing `key.pem` but not `cert.pem`. -/
theorem Start_tls_branch (os : World) (pwd : GoString) (files : List GoString)
    (hwd : os.Getwd = Except.ok pwd)
    (hdir : os.ReadDir (pwd ++ "/certificates".toList) = Except.ok files)
    (h1 : files.any (fun n => Contains n "cert.pem".toList) = true)
    (h2 : files.any (fun n => !Contains n "cert.pem".toList
      && Contains n "key.pem".toList) = true) :
    (Start os).calledStartTLS = true ∧ (Start os).calledListenAndServe = false
    ∧ ∃ port, (Start os).fatal
        = StartTLS os (pwd ++ "/certificates/cert.pem".toList) port := by
  have hr := ReadCertAndKey_of_listing os pwd files hwd hdir
  rw [h1, h2, if_pos rfl, if_pos rfl] at hr
  unfold Start
  rw [hr]
  simp only []
  rw [if_pos ⟨certPath_ne_nil pwd, keyPath_ne_nil pwd⟩]
  exact ⟨rfl, rfl,
    ⟨if os.Getenv "PORT".toList = [] then "8080".toList else os.Getenv "PORT".toList, rfl⟩⟩

/-- The goroutine of `Start` when the listing lacks one of the two kinds of
name. -/
theorem Start_plain_branch (os : World) (pwd : GoString) (files : List GoString)
    (hwd : os.Getwd = Except.ok pwd)
    (hdir : os.ReadDir (pwd ++ "/certificates".toList) = Except.ok files)
    (h : files.any (fun n => Contains n "cert.pem".toList) = false
      ∨ files.any (fun n => !Contains n "cert.pem".toList
          && Contains n "key.pem".toList) = false) :
    ((ReadCertAndKey os).1 = [] ∨ (ReadCertAndKey os).2.1 = [])
    ∧ (Start os).calledStartTLS = false ∧ (Start os).calledListenAndServe = true
    ∧ (Start os).fatal
        = (match os.ListenAndServe with
          | some err => if err.isServerClosed then some err else none
          | none => none) := by
  have hr := ReadCertAndKey_of_listing os pwd files hwd hdir
  have hempty : (ReadCertAndKey os).1 = [] ∨ (ReadCertAndKey os).2.1 = [] := by
    rw [hr]
    rcases h with h | h
    · left; simp only [h]; rfl
    · right; simp only [h]; rfl
  refine ⟨hempty, ?_⟩
  have hnot : ¬ ((ReadCertAndKey os).1 ≠ [] ∧ (ReadCertAndKey os).2.1 ≠ []) := by
    rintro ⟨ha, hb⟩
    rcases hempty with h | h
    · exact ha h
    · exact hb h
  unfold Start
  generalize ReadCertAndKey os = t at hnot
  obtain ⟨a, b, e⟩ := t
  simp only []
  rw [if_neg hnot]
  exact ⟨rfl, rfl, rfl⟩

/-- C9 (the code at the failing input): a certificates directory that holds
`backup-cert.pem` and `key.pem` has no file named `cert.pem`, yet
`ReadCertAndKey` returns two non-empty paths and `Start` takes the TLS branch,
where `StartTLS` fails on the missing `cert.pem` and the error is fatal: the
names are matched as substrings while the paths returned, and the files
`getServerCert` reads, are the exact names. -/
theorem Start_tls_without_cert_file :
    "cert.pem".toList ∉ ["backup-cert.pem".toList, "key.pem".toList]
    ∧ (ReadCertAndKey
        (worldWithListing ["backup-cert.pem".toList, "key.pem".toList])).1 ≠ []
    ∧ (ReadCertAndKey
        (worldWithListing ["backup-cert.pem".toList, "key.pem".toList])).2.1 ≠ []
    ∧ (Start (worldWithListing
        ["backup-cert.pem".toList, "key.pem".toList])).calledStartTLS = true
    ∧ (Start (worldWithListing
        ["backup-cert.pem".toList, "key.pem".toList])).fatal.isSome = true := by
  decide

/-- The branch `Start` takes as the code is written: the TLS branch exactly when
some entry's name contains `cert.pem` and some entry's name contains `key.pem`
without containing `cert.pem`; otherwise `ReadCertAndKey` returns an empty cert
path or an empty key path, `StartTLS` is not called, the plaintext server is
started, and any fatal error is the one `ListenAndServe` returned. -/
theorem Start_branch_by_substring (os : World) (pwd : GoString) (files : List GoString)
    (hwd : os.Getwd = Except.ok pwd)
    (hdir : os.ReadDir (pwd ++ "/certificates".toList) = Except.ok files) :
    ((Start os).calledStartTLS = true ↔
        (∃ n ∈ files, Contains n "cert.pem".toList = true)
        ∧ (∃ n ∈ files, Contains n "cert.pem".toList = false
            ∧ Contains n "key.pem".toList = true))
    ∧ ((Start os).calledStartTLS = false →
        ((ReadCertAndKey os).1 = [] ∨ (ReadCertAndKey os).2.1 = [])
        ∧ (Start os).calledListenAndServe = true
        ∧ ∀ e, (Start os).fatal = some e → os.ListenAndServe = some e) := by
  have e1 : files.any (fun n => Contains n "cert.pem".toList) = true
      ↔ ∃ n ∈ files, Contains n "cert.pem".toList = true := List.any_eq_true
  have e2 : files.any (fun n => !Contains n "cert.pem".toList
        && Contains n "key.pem".toList) = true
      ↔ ∃ n ∈ files, Contains n "cert.pem".toList = false
          ∧ Contains n "key.pem".toList = true := by
    rw [List.any_eq_true]
    constructor
    · rintro ⟨n, hn, h⟩
      rw [Bool.and_eq_true, Bool.not_eq_true'] at h
      exact ⟨n, hn, h⟩
    · rintro ⟨n, hn, h⟩
      refine ⟨n, hn, ?_⟩
      rw [Bool.and_eq_true, Bool.not_eq_true']
      exact h
  by_cases h : files.any (fun n => Contains n "cert.pem".toList) = true
      ∧ files.any (fun n => !Contains n "cert.pem".toList
          && Contains n "key.pem".toList) = true
  · have hs := Start_tls_branch os pwd files hwd hdir h.1 h.2
    refine ⟨⟨fun _ => ⟨e1.mp h.1, e2.mp h.2⟩, fun _ => hs.1⟩, fun hf => ?_⟩
    rw [hs.1] at hf
    exact absurd hf (by decide)
  · have h' : files.any (fun n => Contains n "cert.pem".toList) = false
        ∨ files.any (fun n => !Contains n "cert.pem".toList
            && Contains n "key.pem".toList) = false := by
      by_cases ha : files.any (fun n => Contains n "cert.pem".toList) = true
      · right
        rw [Bool.eq_false_iff]
        exact fun hb => h ⟨ha, hb⟩
      · left
        rw [Bool.eq_false_iff]
        exact ha
    have hs := Start_plain_branch os pwd files hwd hdir h'
    refine ⟨⟨fun ht => ?_, fun hx => absurd ⟨e1.mpr hx.1, e2.mpr hx.2⟩ h⟩, fun _ => ?_⟩
    · rw [hs.2.1] at ht
      exact absurd ht (by decide)
    · refine ⟨hs.1, hs.2.2.1, fun e he => ?_⟩
      rw [hs.2.2.2] at he
      cases hl : os.ListenAndServe with
      | none => rw [hl] at he; exact absurd he (by simp)
      | some err =>
        rw [hl] at he
        simp only [] at he
        split at he
        · exact he
        · exact absurd he (by simp)

theorem Start_branch_by_substring_witness :
    ((Start (worldWithListing ["cert.pem".toList])).calledStartTLS = true ↔
        (∃ n ∈ ["cert.pem".toList], Contains n "cert.pem".toList = true)
        ∧ (∃ n ∈ ["cert.pem".toList], Contains n "cert.pem".toList = false
            ∧ Contains n "key.pem".toList = true))
    ∧ ((Start (worldWithListing ["cert.pem".toList])).calledStartTLS = false →
        ((ReadCertAndKey (worldWithListing ["cert.pem".toList])).1 = []
          ∨ (ReadCertAndKey (worldWithListing ["cert.pem".toList])).2.1 = [])
        ∧ (Start (worldWithListing ["cert.pem".toList])).calledListenAndServe = true
        ∧ ∀ e, (Start (worldWithListing ["cert.pem".toList])).fatal = some e →
            (worldWithListing ["cert.pem".toList]).ListenAndServe = some e) :=
  Start_branch_by_substring (worldWithListing ["cert.pem".toList]) "/srv".toList
    ["cert.pem".toList] rfl rfl

end Routes

namespace Routes
open Strings

theorem readFile_of_stat_empty (os : World) (file pfx : GoString) (info : FileInfo)
    (hst : os.Stat (TrimSpace file) = Except.ok info) (hsz : info.Size < 1) :
    (readFile os file pfx).1 = [] ∧ (readFile os file pfx).2.isSome = true := by
  unfold readFile
  simp only []
  by_cases h0 : TrimSpace file = []
  · rw [if_pos h0]
    exact ⟨rfl, rfl⟩
  · rw [if_neg h0, hst]
    simp only []
    by_cases hd : info.IsDir = true
    · rw [if_pos hd]
      exact ⟨rfl, rfl⟩
    · rw [if_neg hd, if_pos hsz]
      exact ⟨rfl, rfl⟩

theorem StartTLS_of_readFile_error (os : World) (caFile port : GoString)
    (h : (readFile os caFile "CA Cert".toList).2.isSome = true) :
    (StartTLS os caFile port).isSome = true := by
  unfold StartTLS
  cases hr : readFile os caFile "CA Cert".toList with
  | mk b e =>
    rw [hr] at h
    cases e with
    | none => simp at h
    | some err => rfl

/-- C10: `readFile` returns an error and no bytes when the trimmed path is
blank, when `os.Stat` fails (the file does not exist), when the path is a
directory and when the file has size zero; when it returns no error the bytes
are not empty.  So `StartTLS` on a certificate file of zero bytes returns an
error, and `Start`, with `cert.pem` and `key.pem` listed and `cert.pem` empty,
hands that error to `log.Fatal` and never starts the plaintext server. -/
theorem readFile_rejects_and_StartTLS_fails (os : World) (file pfx : GoString) :
    (TrimSpace file = [] →
        (readFile os file pfx).1 = [] ∧ (readFile os file pfx).2.isSome = true)
    ∧ (∀ e, os.Stat (TrimSpace file) = Except.error e →
        (readFile os file pfx).1 = [] ∧ (readFile os file pfx).2.isSome = true)
    ∧ (∀ info, os.Stat (TrimSpace file) = Except.ok info → info.IsDir = true →
        (readFile os file pfx).1 = [] ∧ (readFile os file pfx).2.isSome = true)
    ∧ (∀ info, os.Stat (TrimSpace file) = Except.ok info → info.Size = 0 →
        (readFile os file pfx).1 = [] ∧ (readFile os file pfx).2.isSome = true)
    ∧ ((readFile os file pfx).2 = none → (readFile os file pfx).1 ≠ [])
    ∧ (∀ port info, os.Stat (TrimSpace file) = Except.ok info → info.Size = 0 →
        (StartTLS os file port).isSome = true)
    ∧ (∀ pwd files info, os.Getwd = Except.ok pwd →
        os.ReadDir (pwd ++ "/certificates".toList) = Except.ok files →
        "cert.pem".toList ∈ files → "key.pem".toList ∈ files →
        os.Stat (TrimSpace (pwd ++ "/certificates/cert.pem".toList)) = Except.ok info →
        info.Size = 0 →
        (Start os).calledStartTLS = true ∧ (Start os).fatal.isSome = true
        ∧ (Start os).calledListenAndServe = false) := by
  refine ⟨?_, ?_, ?_, ?_, ?_, ?_, ?_⟩
  · intro h
    unfold readFile
    simp only []
    rw [if_pos h]
    exact ⟨rfl, rfl⟩
  · intro e h
    unfold readFile
    simp only []
    split
    · exact ⟨rfl, rfl⟩
    · rw [h]
      exact ⟨rfl, rfl⟩
  · intro info h hd
    unfold readFile
    simp only []
    split
    · exact ⟨rfl, rfl⟩
    · rw [h]
      simp only []
      rw [if_pos hd]
      exact ⟨rfl, rfl⟩
  · intro info h hs
    exact readFile_of_stat_empty os file pfx info h (by omega)
  · unfold readFile
    simp only []
    split
    · intro h; exact absurd h (by simp)
    · split
      · intro h; exact absurd h (by simp)
      · split
        · intro h; exact absurd h (by simp)
        · split
          · intro h; exact absurd h (by simp)
          · split
            · intro h; exact absurd h (by simp)
            · split
              · intro h; exact absurd h (by simp)
              · rename_i bytes _ hlen
                intro _ hb
                apply hlen
                simp only [] at hb
                rw [hb]
                decide
  · intro port info h hs
    exact StartTLS_of_readFile_error os file port
      (readFile_of_stat_empty os file _ info h (by omega)).2
  · intro pwd files info hwd hdir hc hk hst hs
    have h1 : files.any (fun n => Contains n "cert.pem".toList) = true :=
      List.any_eq_true.mpr ⟨_, hc, by decide⟩
    have h2 : files.any (fun n => !Contains n "cert.pem".toList
        && Contains n "key.pem".toList) = true :=
      List.any_eq_true.mpr ⟨_, hk, by decide⟩
    obtain ⟨ht, hl, port, hf⟩ := Start_tls_branch os pwd files hwd hdir h1 h2
    refine ⟨ht, ?_, hl⟩
    rw [hf]
    exact StartTLS_of_readFile_error os _ port
      (readFile_of_stat_empty os _ _ info hst (by omega)).2

theorem readFile_rejects_and_StartTLS_fails_witness :
    (Start worldWithEmptyCert).calledStartTLS = true
    ∧ (Start worldWithEmptyCert).fatal.isSome = true
    ∧ (Start worldWithEmptyCert).calledListenAndServe = false :=
  (readFile_rejects_and_StartTLS_fails worldWithEmptyCert [] []).2.2.2.2.2.2
    "/srv".toList ["cert.pem".toList, "key.pem".toList] { IsDir := false, Size := 0 }
    rfl rfl (by decide) (by decide) rfl rfl

end Routes

/-! ## The plaintext branch of `Start` -/

namespace Routes

/-- C11 (the code at the failing input): on a machine without certificates,
where `Start` runs the plaintext server, an error of `ListenAndServe` is handed
to `log.Fatal` exactly when it is the sentinel `http.ErrServerClosed`; a bind
failure is dropped without a fatal error, and the sentinel returned after a
graceful shutdown is fatal. -/
theorem Start_plaintext_fatal_only_on_server_closed :
    (∀ err : GoError,
        (Start (worldListening (some err))).calledListenAndServe = true
        ∧ (Start (worldListening (some err))).calledStartTLS = false
        ∧ (Start (worldListening (some err))).fatal
            = if err = GoError.ErrServerClosed then some err else none)
    ∧ (Start (worldListening (some bindError))).fatal = none
    ∧ (Start (worldListening (some GoError.ErrServerClosed))).fatal
        = some GoError.ErrServerClosed := by
  refine ⟨fun err => ⟨rfl, rfl, ?_⟩, by decide, by decide⟩
  show (if err.isServerClosed = true then some err else none) = _
  by_cases h : err = GoError.ErrServerClosed
  · rw [if_pos h, if_pos (by simp [GoError.isServerClosed, h])]
  · rw [if_neg h, if_neg (by simp [GoError.isServerClosed, h])]

end Routes

/-! ## What `setParam` adds to the store -/

namespace Routes
open Strings

theorem removeBraces_eq_stripBraces (v : GoString) :
    removeRightBrace (removeLeftBraces v) = stripBraces v := by
  unfold removeRightBrace removeLeftBraces stripBraces
  rw [ReplaceAll_single, ReplaceAll_single, List.filter_filter]
  apply List.filter_congr
  intro c _
  exact Bool.and_comm _ _

theorem setParamStep_key (sp : List GoString) (url : GoString) (st : ContextKey × GoString)
    (v : GoString) :
    (setParamStep sp url st v).1 = if isPlaceholder v = true then stripBraces v else st.1 := by
  unfold setParamStep isPlaceholder
  rw [removeBraces_eq_stripBraces]
  by_cases hv : v = []
  · subst hv
    rw [if_neg (by simp), if_neg (by decide)]
  · rw [if_pos hv]
    cases hp : HasPrefix v ['{'] with
    | false =>
      rw [if_neg (by simp), if_neg (by simp)]
    | true =>
      rw [if_pos rfl]
      simp only []
      by_cases hk : stripBraces v = []
      · rw [if_neg (by simp [hk]), if_neg (by simp [hk])]
      · rw [if_pos hk, if_pos (by simp [hk])]

theorem setParamStep_fold_key (sp : List GoString) (url : GoString) :
    ∀ (segs : List GoString) (st : ContextKey × GoString),
      (segs.foldl (setParamStep sp url) st).1
        = ((segs.reverse.find? isPlaceholder).map stripBraces).getD st.1 := by
  intro segs
  induction segs with
  | nil => intro st; rfl
  | cons a l ih =>
    intro st
    rw [List.foldl_cons, ih, List.reverse_cons, List.find?_append, setParamStep_key]
    cases hf : l.reverse.find? isPlaceholder with
    | some x => rfl
    | none =>
      cases ha : isPlaceholder a with
      | true => simp [List.find?, ha]
      | false => simp [List.find?, ha]

theorem setParamLoop_key (T url : GoString) :
    (setParamLoop T url).1 = lastPlaceholderName T := by
  unfold setParamLoop lastPlaceholderName
  exact setParamStep_fold_key _ _ _ _

/-- Either `setParam` returns the request as it is, or it returns it with one
binding more, of the key and the non-empty value its loop ends with. -/
theorem setParam_shape (T : GoString) (r : Request) :
    setParam T r = r
    ∨ ((setParamLoop T r.URLPath).1 ≠ [] ∧ (setParamLoop T r.URLPath).2 ≠ []
        ∧ setParam T r = r.WithContext (Context.WithValue r.ctx
            (setParamLoop T r.URLPath).1 (GoAny.str (setParamLoop T r.URLPath).2))) := by
  unfold setParam
  simp only []
  by_cases h : (setParamLoop T r.URLPath).1 ≠ [] ∧ (setParamLoop T r.URLPath).2 ≠ []
  · rw [if_pos h]
    exact Or.inr ⟨h.1, h.2, rfl⟩
  · rw [if_neg h]
    exact Or.inl rfl

/-- C12: `setParam` adds at most one key to the request store and changes no
other key; the key it adds is the text, with every `{` and `}` removed, of the
last template segment that begins with `{` and whose stripped text is not
empty, which is also what `removeRightBrace (removeLeftBraces v)` computes; so
with several placeholders the last one names the parameter. -/
theorem setParam_adds_last_placeholder (T : GoString) (r : Request) :
    (setParam T r = r
      ∨ ∃ v, v ≠ [] ∧ lastPlaceholderName T ≠ []
          ∧ setParam T r = r.WithContext
              (Context.WithValue r.ctx (lastPlaceholderName T) (GoAny.str v)))
    ∧ (∀ k', k' ≠ lastPlaceholderName T →
        Context.Value (setParam T r).ctx k' = Context.Value r.ctx k')
    ∧ (∀ v, removeRightBrace (removeLeftBraces v) = stripBraces v)
    ∧ lastPlaceholderName "/\x7ba\x7d/x/\x7bb\x7d".toList = "b".toList
    ∧ setParam "/\x7ba\x7d/x/\x7bb\x7d".toList (requestFor "/1/x/2".toList)
        = (requestFor "/1/x/2".toList).WithContext
            (Context.WithValue [] "b".toList (GoAny.str "2".toList))
    ∧ lastPlaceholderName "/x/\x7ba\x7d/\x7b\x7d".toList = "a".toList := by
  have hshape := setParam_shape T r
  rw [setParamLoop_key] at hshape
  refine ⟨?_, ?_, removeBraces_eq_stripBraces, by decide, by decide, by decide⟩
  · rcases hshape with h | ⟨hk, hv, h⟩
    · exact Or.inl h
    · exact Or.inr ⟨_, hv, hk, h⟩
  · intro k' hk'
    rcases hshape with h | ⟨_, _, h⟩
    · rw [h]
    · rw [h]
      simp only [Request.WithContext, Context.WithValue, Context.Value]
      rw [if_neg (Ne.symm hk')]

theorem setParam_adds_last_placeholder_witness :
    Context.Value (setParam "/\x7ba\x7d/x/\x7bb\x7d".toList
        (requestFor "/1/x/2".toList)).ctx "a".toList
      = Context.Value (requestFor "/1/x/2".toList).ctx "a".toList :=
  (setParam_adds_last_placeholder "/\x7ba\x7d/x/\x7bb\x7d".toList
    (requestFor "/1/x/2".toList)).2.1 "a".toList (by decide)

end Routes

/-! ## The value `setParam` stores -/

namespace Routes
open Strings

theorem splitPathStep_no_slash (url pv v : GoString) (h : '/' ∉ pv) :
    '/' ∉ splitPathStep url pv v := by
  unfold splitPathStep
  split
  · split
    · simp only []
      rw [ReplaceAll_single]
      intro hm
      have := (List.mem_filter.mp hm).2
      simp at this
    · exact h
  · exact h

theorem splitPath_no_slash (url : GoString) :
    ∀ (sp : List GoString) (pv : GoString), '/' ∉ pv → '/' ∉ splitPath sp url pv := by
  intro sp
  induction sp with
  | nil => intro pv h; exact h
  | cons v rest ih =>
    intro pv h
    exact ih _ (splitPathStep_no_slash url pv v h)

/-- One step of `splitPath` either ignores the value passed in or returns it. -/
theorem splitPathStep_const_or_id (url v : GoString) :
    (∀ pv pv', splitPathStep url pv v = splitPathStep url pv' v)
    ∨ (∀ pv, splitPathStep url pv v = pv) := by
  by_cases h : v ≠ [] ∧ Contains url v = true
  · left
    intro pv pv'
    unfold splitPathStep
    rw [if_pos h.1, if_pos h.2, if_pos h.1, if_pos h.2]
  · right
    intro pv
    unfold splitPathStep
    by_cases hv : v ≠ []
    · rw [if_pos hv, if_neg (fun hc => h ⟨hv, hc⟩)]
    · rw [if_neg hv]

theorem splitPath_const_or_id (url : GoString) :
    ∀ sp : List GoString,
      (∀ pv pv', splitPath sp url pv = splitPath sp url pv')
      ∨ (∀ pv, splitPath sp url pv = pv) := by
  intro sp
  induction sp with
  | nil => right; intro pv; rfl
  | cons v rest ih =>
    have hcons : ∀ pv, splitPath (v :: rest) url pv
        = splitPath rest url (splitPathStep url pv v) := fun _ => rfl
    rcases ih with hc | hi
    · left
      intro pv pv'
      rw [hcons, hcons]
      exact hc _ _
    · rcases splitPathStep_const_or_id url v with sc | si
      · left
        intro pv pv'
        rw [hcons, hcons, hi, hi]
        exact sc pv pv'
      · right
        intro pv
        rw [hcons, hi, si]

theorem splitPath_idem (sp : List GoString) (url pv : GoString) :
    splitPath sp url (splitPath sp url pv) = splitPath sp url pv := by
  rcases splitPath_const_or_id url sp with hc | hi
  · exact hc _ _
  · rw [hi]

/-- The value the loop of `setParam` carries is the empty string or the result
of `splitPath` started from the empty string. -/
theorem setParamStep_fold_value (sp : List GoString) (url : GoString) :
    ∀ (segs : List GoString) (st : ContextKey × GoString),
      (st.2 = [] ∨ st.2 = splitPath sp url []) →
      ((segs.foldl (setParamStep sp url) st).2 = []
        ∨ (segs.foldl (setParamStep sp url) st).2 = splitPath sp url []) := by
  intro segs
  induction segs with
  | nil => intro st h; exact h
  | cons v rest ih =>
    intro st h
    rw [List.foldl_cons]
    apply ih
    unfold setParamStep
    split
    · split
      · simp only []
        split
        · exact h
        · exact h
      · right
        show splitPath sp url st.2 = splitPath sp url []
        rcases h with h | h
        · rw [h]
        · rw [h, splitPath_idem]
    · exact h

theorem setParamLoop_value (T url : GoString) :
    (setParamLoop T url).2 = []
    ∨ (setParamLoop T url).2 = splitPath (Split T ['/']) url [] := by
  unfold setParamLoop
  exact setParamStep_fold_value _ _ _ _ (Or.inl rfl)

theorem lastPlaceholderName_of_no_brace (T : GoString)
    (h : ∀ seg ∈ Split T ['/'], HasPrefix seg ['{'] = false) :
    lastPlaceholderName T = [] := by
  unfold lastPlaceholderName
  have hnone : (Split T ['/']).reverse.find? isPlaceholder = none := by
    rw [List.find?_eq_none]
    intro seg hseg
    have := h seg (List.mem_reverse.mp hseg)
    simp [isPlaceholder, this]
  rw [hnone]
  rfl

/-- C13: a parameter value that `setParam` stores is not empty, has no `/`, and
is what `splitPath` returns when started from the empty string; `splitPath`
started from the empty string never returns a string with a `/`; and `setParam`
returns the request unchanged when that string is empty or when no template
segment begins with `{`. -/
theorem setParam_value_no_slash (T : GoString) (r : Request) :
    (setParam T r = r
      ∨ ∃ k v, setParam T r = r.WithContext (Context.WithValue r.ctx k (GoAny.str v))
          ∧ v ≠ [] ∧ '/' ∉ v ∧ v = splitPath (Split T ['/']) r.URLPath [])
    ∧ (∀ (sp : List GoString) (url : GoString), '/' ∉ splitPath sp url [])
    ∧ (splitPath (Split T ['/']) r.URLPath [] = [] → setParam T r = r)
    ∧ ((∀ seg ∈ Split T ['/'], HasPrefix seg ['{'] = false) → setParam T r = r) := by
  have hnos : ∀ (sp : List GoString) (url : GoString), '/' ∉ splitPath sp url [] :=
    fun sp url => splitPath_no_slash url sp [] (by simp)
  refine ⟨?_, hnos, ?_, ?_⟩
  · rcases setParam_shape T r with h | ⟨_, hv, h⟩
    · exact Or.inl h
    · right
      rcases setParamLoop_value T r.URLPath with he | he
      · exact absurd he hv
      · exact ⟨_, _, h, hv, by rw [he]; exact hnos _ _, he⟩
  · intro hS
    rcases setParam_shape T r with h | ⟨_, hv, _⟩
    · exact h
    · rcases setParamLoop_value T r.URLPath with he | he
      · exact absurd he hv
      · exact absurd (he.trans hS) hv
  · intro hno
    rcases setParam_shape T r with h | ⟨hk, _, _⟩
    · exact h
    · rw [setParamLoop_key, lastPlaceholderName_of_no_brace T hno] at hk
      exact absurd rfl hk

theorem setParam_value_no_slash_witness :
    setParam "/hello/world".toList (requestFor "/hello/world".toList)
      = requestFor "/hello/world".toList :=
  (setParam_value_no_slash "/hello/world".toList (requestFor "/hello/world".toList)).2.2.2
    (by decide)

end Routes
